import Mathlib

/-!
Verification of the BioOS simulation kernel against its specification.

The repository ships the test suite (test_bioOS_Python.py), the configuration
module (bioOS_config.py) and unrelated live-operations glue; the kernel module
itself (bioOS_kernel.py, imported by the tests) is not part of the checked-in
sources.  The definitions below therefore embed the kernel as described by the
specification, using exact rational arithmetic for the float quantities.
-/

/-! ## Configuration constants (from bioOS_config.py) -/

/-- Seconds per simulation tick, from bioOS_config.py. -/
def TIME_STEP : ℚ := 1/10

/-- Total system memory units, from bioOS_config.py. -/
def MEMORY_TOTAL_CAPACITY : ℚ := 10000

/-- Memory allocated per organism, from bioOS_config.py. -/
def MEMORY_PER_ORGANISM : ℚ := 100

/-- Initial energy per organism, from bioOS_config.py. -/
def PROCESS_INITIAL_ENERGY : ℚ := 100

/-- Energy consumed per update tick, from bioOS_config.py. -/
def PROCESS_ENERGY_COST_PER_TICK : ℚ := 1/2

/-- Minimum energy before termination, from bioOS_config.py. -/
def PROCESS_MIN_ENERGY : ℚ := 0

/-- Modelled from the spec: the spec says a created process has a priority
defaulting to a mid-level value; bioOS_config.py declares 10 priority levels
(1-10), so the mid level is 5. -/
def PROCESS_DEFAULT_PRIORITY : ℤ := 5

/-- Base expression rate per tick, from bioOS_config.py. -/
def GENE_EXPRESSION_RATE : ℚ := 1/10

/-- Maximum expression level, from bioOS_config.py. -/
def GENE_EXPRESSION_MAX : ℚ := 1

/-- Degradation rate per tick, from bioOS_config.py. -/
def PROTEIN_DEGRADATION_RATE : ℚ := 1/10

/-- Energy cost for cell division, from bioOS_config.py. -/
def CELL_DIVISION_ENERGY_COST : ℚ := 50

/-- Minimum energy to divide, from bioOS_config.py. -/
def CELL_DIVISION_ENERGY_THRESHOLD : ℚ := 80

/-- Probability of mutation per gene per division, from bioOS_config.py. -/
def MUTATION_RATE : ℚ := 1/100

/-- Magnitude of expression level change, from bioOS_config.py. -/
def MUTATION_SEVERITY : ℚ := 1/10

/-- Stochastic event probability per tick, from bioOS_config.py. -/
def EVENT_PROB_CELL_DIVISION : ℚ := 1/100

/-- Stochastic event probability per tick, from bioOS_config.py. -/
def EVENT_PROB_APOPTOSIS : ℚ := 1/200

/-- Stochastic event probability per tick, from bioOS_config.py. -/
def EVENT_PROB_MUTATION : ℚ := 1/500

/-- Stochastic event probability per tick, from bioOS_config.py. -/
def EVENT_PROB_GENE_EXPRESSION : ℚ := 1/10

/-- Stochastic event probability per tick, from bioOS_config.py. -/
def EVENT_PROB_SIGNAL_RECEPTION : ℚ := 1/20

/-! ## Gene and Protein -/

/-- Modelled from the spec: a Gene is a named symbolic sequence with a bounded
expression level in [0, GENE_EXPRESSION_MAX].  The kernel source
(bioOS_kernel.py) is absent from the repository. -/
structure Gene where
  name : String
  sequence : String
  expression_level : ℚ
deriving DecidableEq

/-- Modelled from the spec: the Gene constructor, as exercised by
TestGene.test_gene_creation, starts with expression_level 0.0. -/
def Gene.create (name sequence : String) : Gene :=
  { name := name, sequence := sequence, expression_level := 0 }

/-- Modelled from the spec: expression moves the level up by the configured
base rate scaled by dt, saturating at the configured maximum
(TestGene.test_gene_expression_saturation observes exact saturation at 1.0). -/
def Gene.express (g : Gene) (dt : ℚ) : Gene :=
  { g with expression_level := min GENE_EXPRESSION_MAX (g.expression_level + GENE_EXPRESSION_RATE * dt) }

/-- Expressing a gene repeatedly with the given list of time steps. -/
def Gene.expressSeq (g : Gene) (dts : List ℚ) : Gene :=
  dts.foldl Gene.express g

/-- Modelled from the spec: a Protein is a named concentration value tied to an
origin gene, subject to decay. -/
structure Protein where
  name : String
  origin_gene : String
  concentration : ℚ
deriving DecidableEq

/-- Modelled from the spec: proteins degrade by a configured rate each update;
concentration monotonically decreases absent new synthesis. -/
def Protein.degrade (p : Protein) : Protein :=
  { p with concentration := p.concentration * (1 - PROTEIN_DEGRADATION_RATE) }

/-! ## BioProcess -/

/-- Process lifecycle states, as imported by the test suite. -/
inductive ProcessState where
  | READY
  | RUNNING
  | SLEEPING
  | TERMINATED
deriving DecidableEq

/-- Modelled from the spec: an organism process with pid, name, state, energy
(clamped at the configured minimum), monotonically increasing age, a genome
mapping gene names to genes, and an integer priority (lower = scheduled
first).  Protein bookkeeping inside the process is omitted: no checked claim
mentions it. -/
structure BioProcess where
  pid : ℕ
  name : String
  state : ProcessState
  energy : ℚ
  age : ℚ
  genome : List (String × Gene)
  priority : ℤ
deriving DecidableEq

/-- Modelled from the spec: a freshly created process is READY with the
configured initial energy, age 0, an empty genome and the default priority. -/
def BioProcess.create (pid : ℕ) (name : String) : BioProcess :=
  { pid := pid, name := name, state := ProcessState.READY,
    energy := PROCESS_INITIAL_ENERGY, age := 0, genome := [],
    priority := PROCESS_DEFAULT_PRIORITY }

/-- Modelled from the spec: update(dt) is a no-op if the process is TERMINATED;
otherwise age increases by dt, energy decreases by the configured cost times dt
clamped at the configured minimum, the state turns TERMINATED exactly when the
energy reaches that minimum, and every gene in the genome expresses with dt. -/
def BioProcess.update (p : BioProcess) (dt : ℚ) : BioProcess :=
  if p.state = ProcessState.TERMINATED then p
  else
    let newEnergy := max PROCESS_MIN_ENERGY
      (p.energy - PROCESS_ENERGY_COST_PER_TICK * dt)
    { p with
      age := p.age + dt
      energy := newEnergy
      state := if newEnergy ≤ PROCESS_MIN_ENERGY then ProcessState.TERMINATED
               else p.state
      genome := p.genome.map (fun ng => (ng.1, ng.2.express dt)) }

/-- Iterated update with dt = 1, as in TestBioProcess.test_process_energy_decay. -/
def BioProcess.updateN (p : BioProcess) : ℕ → BioProcess
  | 0 => p
  | n + 1 => (p.updateN n).update 1

/-! ## BiologicalMemory -/

/-- Modelled from the spec: a capacity-bound allocator tracking per-entity
reservations as a mapping from entity id to reserved size (keys unique,
insertion ordered). -/
structure BiologicalMemory where
  total_capacity : ℚ
  allocations : List (ℕ × ℚ)
deriving DecidableEq

/-- Modelled from the spec: free_space is derived as total_capacity minus the
sum of all reservations. -/
def BiologicalMemory.free_space (m : BiologicalMemory) : ℚ :=
  m.total_capacity - (m.allocations.map Prod.snd).sum

/-- Modelled from the spec: allocate(id, size) fails (returns false, no
mutation) if size exceeds free_space or the id is already present; otherwise it
inserts the reservation and returns true. -/
def BiologicalMemory.allocate (m : BiologicalMemory) (id : ℕ) (size : ℚ) :
    Bool × BiologicalMemory :=
  if m.free_space < size ∨ id ∈ m.allocations.map Prod.fst then (false, m)
  else (true, { m with allocations := m.allocations ++ [(id, size)] })

/-- Modelled from the spec: deallocate(id) fails if the id is not present;
otherwise it removes the reservation, restoring free_space, and returns true. -/
def BiologicalMemory.deallocate (m : BiologicalMemory) (id : ℕ) :
    Bool × BiologicalMemory :=
  if id ∈ m.allocations.map Prod.fst then
    (true, { m with allocations := m.allocations.filter (fun a => decide (a.1 ≠ id)) })
  else (false, m)

/-- Modelled from the spec: usage percentage, defined as 0 when the capacity
is 0. -/
def BiologicalMemory.get_usage (m : BiologicalMemory) : ℚ :=
  if m.total_capacity = 0 then 0
  else (m.total_capacity - m.free_space) / m.total_capacity * 100

/-! ## ProcessScheduler -/

/-- Modelled from the spec: the scheduler owns the set of processes (stored in
creation order, hence pid ascending) and the monotonically assigned next pid. -/
structure ProcessScheduler where
  processes : List BioProcess
  next_pid : ℕ
deriving DecidableEq

/-- A freshly constructed scheduler: no processes, next pid 0. -/
def ProcessScheduler.init : ProcessScheduler := { processes := [], next_pid := 0 }

/-- Modelled from the spec: create_process assigns the next unused pid
(monotonic, never reused), registers a fresh READY process, and always
succeeds. -/
def ProcessScheduler.create_process (s : ProcessScheduler) (name : String) :
    ℕ × ProcessScheduler :=
  (s.next_pid,
   { processes := s.processes ++ [BioProcess.create s.next_pid name],
     next_pid := s.next_pid + 1 })

/-- Modelled from the spec: O(1)-style lookup returning the process with the
given pid, or none when the pid is unknown. -/
def ProcessScheduler.get_process (s : ProcessScheduler) (pid : ℕ) :
    Option BioProcess :=
  s.processes.find? (fun p => decide (p.pid = pid))

/-- Applies a function to every registered process carrying the given pid. -/
def ProcessScheduler.modifyProcess (s : ProcessScheduler) (pid : ℕ)
    (f : BioProcess → BioProcess) : ProcessScheduler :=
  { s with processes := s.processes.map (fun p => if p.pid = pid then f p else p) }

/-- Modelled from the spec: terminate_process sets the state of the process to
TERMINATED when the pid is known and returns true; it returns false when the
pid is unknown. -/
def ProcessScheduler.terminate_process (s : ProcessScheduler) (pid : ℕ) :
    Bool × ProcessScheduler :=
  match s.get_process pid with
  | some _ =>
      (true, s.modifyProcess pid (fun p => { p with state := ProcessState.TERMINATED }))
  | none => (false, s)

/-- The strict preference used by the scheduler: q beats p when q has a lower
priority value, with ties broken by lower pid. -/
def pickBetter (p q : BioProcess) : BioProcess :=
  if q.priority < p.priority ∨ (q.priority = p.priority ∧ q.pid < p.pid) then q
  else p

/-- The selection order of the scheduler: lower priority value first, ties
broken by lower pid. -/
def lowerPriority (p q : BioProcess) : Prop :=
  p.priority < q.priority ∨ (p.priority = q.priority ∧ p.pid ≤ q.pid)

/-- Modelled from the spec: schedule() selects, among the non-TERMINATED
processes, the one with the lowest priority value, ties broken by lowest pid;
it returns none when no eligible process exists.  It is a pure selection: the
scheduler state is not part of the result, so no process is mutated. -/
def ProcessScheduler.schedule (s : ProcessScheduler) : Option BioProcess :=
  match s.processes.filter (fun p => decide (p.state ≠ ProcessState.TERMINATED)) with
  | [] => none
  | p :: rest => some (rest.foldl pickBetter p)

/-! ## EventManager -/

/-- Biological event types, as imported by the test suite; TERMINATION is the
type of the termination event the kernel emits when a process dies. -/
inductive EventType where
  | CELL_DIVISION
  | APOPTOSIS
  | MUTATION
  | GENE_EXPRESSION
  | SIGNAL_RECEPTION
  | TERMINATION
deriving DecidableEq

/-- An event record: timestamp, type and the pid that produced it. -/
structure BiologicalEvent where
  timestamp : ℚ
  event_type : EventType
  source_pid : ℕ
deriving DecidableEq

/-- Modelled from the spec: the event manager stores an event queue (unordered
storage, ordering enforced at dispatch time) and, per event type, the list of
subscribed handler references in registration order.  Handlers are identified
by numeric references; their invocation is recorded observationally in the
dispatch log returned by process_events. -/
structure EventManager where
  event_queue : List BiologicalEvent
  subscribers : EventType → List ℕ

/-- A freshly constructed event manager: empty queue, no subscribers. -/
def EventManager.init : EventManager :=
  { event_queue := [], subscribers := fun _ => [] }

/-- Modelled from the spec: emit appends the event to the queue
unconditionally. -/
def EventManager.emit (em : EventManager) (e : BiologicalEvent) : EventManager :=
  { em with event_queue := em.event_queue ++ [e] }

/-- Modelled from the spec: subscribe appends the handler to the subscriber
list of the given type; registration order is invocation order. -/
def EventManager.subscribe (em : EventManager) (t : EventType) (h : ℕ) :
    EventManager :=
  { em with subscribers := fun t2 => if t2 = t then em.subscribers t2 ++ [h] else em.subscribers t2 }

/-- The dispatch order on queue positions paired with events: earlier
timestamp first, ties broken by emission order (queue position). -/
def dueBefore (a b : ℕ × BiologicalEvent) : Prop :=
  a.2.timestamp < b.2.timestamp ∨ (a.2.timestamp = b.2.timestamp ∧ a.1 ≤ b.1)

instance : DecidableRel dueBefore := fun a b => by
  unfold dueBefore; infer_instance

instance : IsTotal (ℕ × BiologicalEvent) dueBefore := by
  constructor
  intro a b
  rcases lt_trichotomy a.2.timestamp b.2.timestamp with h | h | h
  · exact Or.inl (Or.inl h)
  · rcases Nat.le_total a.1 b.1 with h2 | h2
    · exact Or.inl (Or.inr ⟨h, h2⟩)
    · exact Or.inr (Or.inr ⟨h.symm, h2⟩)
  · exact Or.inr (Or.inl h)

instance : IsTrans (ℕ × BiologicalEvent) dueBefore := by
  constructor
  intro a b c hab hbc
  rcases hab with h1 | ⟨h1, h1i⟩
  · rcases hbc with h2 | ⟨h2, _⟩
    · exact Or.inl (h1.trans h2)
    · exact Or.inl (h2 ▸ h1)
  · rcases hbc with h2 | ⟨h2, h2i⟩
    · exact Or.inl (h1 ▸ h2)
    · exact Or.inr ⟨h1.trans h2, h1i.trans h2i⟩

/-- The due subset of the queue, tagged with emission positions and sorted by
(timestamp, emission order) ascending. -/
def sortedDueIdx (queue : List BiologicalEvent) (t : ℚ) :
    List (ℕ × BiologicalEvent) :=
  List.insertionSort dueBefore
    (queue.enum.filter (fun ie => decide (ie.2.timestamp ≤ t)))

/-- Modelled from the spec: the events due at or before t, in dispatch order:
sorted by (timestamp, emission order) ascending. -/
def dispatchList (queue : List BiologicalEvent) (t : ℚ) : List BiologicalEvent :=
  (sortedDueIdx queue t).map Prod.snd

/-- Modelled from the spec: process_events(t) dispatches every due event, in
(timestamp, emission order), to every handler subscribed to its type in
registration order, and removes exactly the due events from the queue.  The
first component records the handler invocations in order. -/
def EventManager.process_events (em : EventManager) (t : ℚ) :
    List (ℕ × BiologicalEvent) × EventManager :=
  let dispatched := dispatchList em.event_queue t
  (dispatched.flatMap (fun e => (em.subscribers e.event_type).map (fun h => (h, e))),
   { em with event_queue := em.event_queue.filter (fun e => decide (t < e.timestamp)) })

/-! ## BioOS kernel -/

/-- Error taxonomy of the kernel, from the specification. -/
inductive BioError where
  | resourceExhausted
deriving DecidableEq

/-- Modelled from the spec: the kernel owns one scheduler, one memory manager
and one event manager, a fixed time step, the current simulated time, the
running flag, and the single seedable random source (a stream of draws in
[0, 1), indexed by the number of draws consumed so far). -/
structure BioOS where
  time_step : ℚ
  current_time : ℚ
  running : Bool
  scheduler : ProcessScheduler
  memory : BiologicalMemory
  event_manager : EventManager
  rng : ℕ → ℚ
  rngIndex : ℕ

/-- A freshly constructed kernel with the given time step and random source. -/
def BioOS.init (ts : ℚ) (rng : ℕ → ℚ) : BioOS :=
  { time_step := ts, current_time := 0, running := false,
    scheduler := ProcessScheduler.init,
    memory := { total_capacity := MEMORY_TOTAL_CAPACITY, allocations := [] },
    event_manager := EventManager.init, rng := rng, rngIndex := 0 }

/-- Consumes one draw from the random source. -/
def BioOS.draw (os : BioOS) : ℚ × BioOS :=
  (os.rng os.rngIndex, { os with rngIndex := os.rngIndex + 1 })

/-- Modelled from the spec: create_organism creates a process, attaches the
given genome, and allocates the per-organism memory footprint; if the
allocation fails the creation fails with ResourceExhausted and the process is
rolled back (terminated immediately). -/
def BioOS.create_organism (os : BioOS) (name : String)
    (genome : List (String × Gene)) : Except BioError ℕ × BioOS :=
  let pid := (os.scheduler.create_process name).1
  let sched1 := (os.scheduler.create_process name).2
  let sched2 := sched1.modifyProcess pid (fun p => { p with genome := genome })
  let alloc := os.memory.allocate pid MEMORY_PER_ORGANISM
  if alloc.1 then
    (Except.ok pid, { os with scheduler := sched2, memory := alloc.2 })
  else
    (Except.error BioError.resourceExhausted,
     { os with scheduler := (sched2.terminate_process pid).2 })

/-- The stochastic trials drawn per live process per tick, in the order listed
by the specification, with the configured probabilities. -/
def stochasticTrials : List (EventType × ℚ) :=
  [(EventType.CELL_DIVISION, EVENT_PROB_CELL_DIVISION),
   (EventType.APOPTOSIS, EVENT_PROB_APOPTOSIS),
   (EventType.MUTATION, EVENT_PROB_MUTATION),
   (EventType.GENE_EXPRESSION, EVENT_PROB_GENE_EXPRESSION),
   (EventType.SIGNAL_RECEPTION, EVENT_PROB_SIGNAL_RECEPTION)]

/-- Runs one stochastic trial for one process: a draw below the probability of
the trial emits a correspondingly typed event timestamped at t. -/
def BioOS.runTrial (t : ℚ) (pid : ℕ) (os : BioOS) (tp : EventType × ℚ) : BioOS :=
  let d := os.draw
  if d.1 < tp.2 then
    { d.2 with event_manager := d.2.event_manager.emit { timestamp := t, event_type := tp.1, source_pid := pid } }
  else d.2

/-- Modelled from the spec: the stochastic phase draws, for each live process,
one trial per configured event probability, emitting events timestamped at t. -/
def BioOS.stochasticPhase (os : BioOS) (t : ℚ) : BioOS :=
  (os.scheduler.processes.filter
      (fun p => decide (p.state ≠ ProcessState.TERMINATED))).foldl
    (fun acc p => stochasticTrials.foldl (BioOS.runTrial t p.pid) acc) os

/-- Modelled from the spec: mutation of one gene during division: with the
configured mutation probability, shift the expression level by up to the
configured severity (direction and magnitude driven by a second draw), clamped
to the valid range. -/
def BioOS.mutateGene (os : BioOS) (g : Gene) : Gene × BioOS :=
  let d1 := os.draw
  if d1.1 < MUTATION_RATE then
    let d2 := d1.2.draw
    ({ g with expression_level := max 0 (min GENE_EXPRESSION_MAX (g.expression_level + MUTATION_SEVERITY * (2 * d2.1 - 1))) }, d2.2)
  else (g, d1.2)

/-- Mutates every gene of a genome independently, threading the kernel. -/
def BioOS.mutateGenome (os : BioOS) :
    List (String × Gene) → List (String × Gene) × BioOS
  | [] => ([], os)
  | ng :: rest =>
      let g2 := os.mutateGene ng.2
      let r2 := g2.2.mutateGenome rest
      ((ng.1, g2.1) :: r2.1, r2.2)

/-- Modelled from the spec: the internally subscribed division handler: when
the source process has at least the division threshold of energy, deduct the
division cost and create a new organism with a mutated copy of the genome of
the parent; a failed allocation aborts the division with no state change
beyond the energy deduction. -/
def BioOS.handleDivision (os : BioOS) (e : BiologicalEvent) : BioOS :=
  match os.scheduler.get_process e.source_pid with
  | none => os
  | some p =>
      if CELL_DIVISION_ENERGY_THRESHOLD ≤ p.energy then
        let os1 := { os with scheduler := os.scheduler.modifyProcess e.source_pid (fun q => { q with energy := q.energy - CELL_DIVISION_ENERGY_COST }) }
        let mg := os1.mutateGenome p.genome
        (mg.2.create_organism p.name mg.1).2
      else os

/-- Kernel-side handling of one dispatched event: only CELL_DIVISION has an
internally subscribed handler; every other type is consumed with no effect. -/
def BioOS.handleEvent (os : BioOS) (e : BiologicalEvent) : BioOS :=
  match e.event_type with
  | EventType.CELL_DIVISION => os.handleDivision e
  | _ => os

/-- Modelled from the spec: the dispatch phase removes all events due at or
before t from the queue and handles them in (timestamp, emission order). -/
def BioOS.dispatchPhase (os : BioOS) (t : ℚ) : BioOS :=
  let due := dispatchList os.event_manager.event_queue t
  let os2 := { os with event_manager := { os.event_manager with event_queue := os.event_manager.event_queue.filter (fun e => decide (t < e.timestamp)) } }
  due.foldl BioOS.handleEvent os2

/-- Modelled from the spec: run_tick advances current_time by time_step, then
updates every non-TERMINATED process in pid order, then deallocates the memory
of processes that terminated this tick and emits a termination event for each,
then runs the stochastic trials for each live process, and finally dispatches
every event due at or before the new current time. -/
def BioOS.run_tick (os : BioOS) : BioOS :=
  let t := os.current_time + os.time_step
  let newlyDead := (os.scheduler.processes.filter
      (fun p => decide (p.state ≠ ProcessState.TERMINATED) &&
        decide ((p.update os.time_step).state = ProcessState.TERMINATED))).map
    (fun p => p.pid)
  let os1 := { os with
    current_time := t,
    scheduler := { os.scheduler with processes := os.scheduler.processes.map (fun (p : BioProcess) => p.update os.time_step) } }
  let os2 := newlyDead.foldl
    (fun acc pid =>
      { acc with
        memory := (acc.memory.deallocate pid).2,
        event_manager := acc.event_manager.emit { timestamp := t, event_type := EventType.TERMINATION, source_pid := pid } })
    os1
  (os2.stochasticPhase t).dispatchPhase t

/-- Iterated ticks. -/
def BioOS.runTicks (os : BioOS) : ℕ → BioOS
  | 0 => os
  | k + 1 => (os.runTicks k).run_tick

/-- Modelled from the spec: start sets the running flag. -/
def BioOS.start (os : BioOS) : BioOS := { os with running := true }

/-- Modelled from the spec: stop clears the running flag; it is checked only
between ticks. -/
def BioOS.stop (os : BioOS) : BioOS := { os with running := false }

/-! ## Auxiliary definitions used by the verification -/

/-- A freshly created process carrying an attached genome, as produced by
create_organism. -/
def freshProcess (pid : ℕ) (name : String) (genome : List (String × Gene)) :
    BioProcess :=
  { BioProcess.create pid name with genome := genome }

/-- Scheduler-level operations that can follow a termination: process
creation, termination, priority change, and the per-tick update sweep. -/
inductive SchedOp where
  | create (name : String)
  | terminate (pid : ℕ)
  | setPriority (pid : ℕ) (prio : ℤ)
  | tick (dt : ℚ)

/-- Applying one scheduler operation, discarding the returned value. -/
def SchedOp.apply (s : ProcessScheduler) : SchedOp → ProcessScheduler
  | SchedOp.create name => (s.create_process name).2
  | SchedOp.terminate pid => (s.terminate_process pid).2
  | SchedOp.setPriority pid prio =>
      s.modifyProcess pid (fun p => { p with priority := prio })
  | SchedOp.tick dt =>
      { s with processes := s.processes.map (fun p => p.update dt) }

/-- Applying a sequence of scheduler operations in order. -/
def applyOps (s : ProcessScheduler) : List SchedOp → ProcessScheduler
  | [] => s
  | op :: ops => applyOps (op.apply s) ops

/-- Invariant: the given pid is below the pid counter, every process with that
pid is TERMINATED, and every registered pid is below the counter. -/
def DeadPid (s : ProcessScheduler) (pid : ℕ) : Prop :=
  pid < s.next_pid ∧
  (∀ p ∈ s.processes, p.pid = pid → p.state = ProcessState.TERMINATED) ∧
  (∀ p ∈ s.processes, p.pid < s.next_pid)

/-- The event manager of TestEventManager.test_event_ordering: one subscribed
handler for CELL_DIVISION, and events emitted with timestamps 3, 1, 2. -/
def emTest : EventManager :=
  (((EventManager.init.subscribe EventType.CELL_DIVISION 0).emit
      { timestamp := 3, event_type := EventType.CELL_DIVISION, source_pid := 1 }).emit
      { timestamp := 1, event_type := EventType.CELL_DIVISION, source_pid := 1 }).emit
      { timestamp := 2, event_type := EventType.CELL_DIVISION, source_pid := 1 }

/-- Iterated update with a fixed time step. -/
def BioProcess.updateIter (p : BioProcess) (dt : ℚ) : ℕ → BioProcess
  | 0 => p
  | k + 1 => (p.updateIter dt k).update dt

/-- Relation between kernel states: the second state differs from the first
only in the rng index and in events appended to the queue, all timestamped at
t, and none of type CELL_DIVISION whenever every rng draw is at least the
division probability. -/
def TickExtension (os os2 : BioOS) (t : ℚ) : Prop :=
  os2.scheduler = os.scheduler ∧ os2.memory = os.memory ∧
  os2.current_time = os.current_time ∧ os2.time_step = os.time_step ∧
  os2.running = os.running ∧ os2.rng = os.rng ∧
  os2.event_manager.subscribers = os.event_manager.subscribers ∧
  ∃ extra, os2.event_manager.event_queue = os.event_manager.event_queue ++ extra ∧
    ∀ e ∈ extra, e.timestamp = t ∧
      ((∀ i, EVENT_PROB_CELL_DIVISION ≤ os.rng i) →
        e.event_type ≠ EventType.CELL_DIVISION)

/-- The deterministic update phase of a tick: time advances by the time step
and every process is updated. -/
def BioOS.updatePhase (os : BioOS) : BioOS :=
  { os with
    current_time := os.current_time + os.time_step,
    scheduler := { os.scheduler with
      processes := os.scheduler.processes.map
        (fun (q : BioProcess) => q.update os.time_step) } }

/-- Whether an organism creation succeeded. -/
def isOk : Except BioError ℕ → Bool
  | Except.ok _ => true
  | Except.error _ => false

/-- The genome used by the stress scenario. -/
def stressGenome : List (String × Gene) := [("GENE", Gene.create "GENE" "ATCG")]

/-- One creation step of the stress scenario, recording the success flag. -/
def stressStep (acc : List Bool × BioOS) (_ : ℕ) : List Bool × BioOS :=
  ((acc.1 ++ [isOk (acc.2.create_organism "Org" stressGenome).1]),
   (acc.2.create_organism "Org" stressGenome).2)

/-- n organism creations against a fresh kernel, as in test_many_organisms. -/
def stressResults (n : ℕ) : List Bool × BioOS :=
  (List.range n).foldl stressStep ([], BioOS.init (1/10) (fun _ => 1))

/-! ## Claim C10: initial states -/

/-- C10: a freshly constructed ProcessScheduler assigns pid 0 to its first
created process, and a freshly constructed Gene has expression_level exactly
0.0. -/
theorem initial_state_spec :
    (ProcessScheduler.init.create_process "Test1").1 = 0 ∧
    (Gene.create "TEST_GENE" "ATCGATCG").expression_level = 0 :=
  ⟨rfl, rfl⟩

/-! ## Claims C4, C5: memory allocator laws -/

/-- Case equation: allocation fails when the guard holds. -/
theorem BiologicalMemory.allocate_fail {m : BiologicalMemory} {id : ℕ} {size : ℚ}
    (h : m.free_space < size ∨ id ∈ m.allocations.map Prod.fst) :
    m.allocate id size = (false, m) := by
  unfold BiologicalMemory.allocate
  rw [if_pos h]

/-- Case equation: allocation succeeds when the guard fails. -/
theorem BiologicalMemory.allocate_ok {m : BiologicalMemory} {id : ℕ} {size : ℚ}
    (h : ¬(m.free_space < size ∨ id ∈ m.allocations.map Prod.fst)) :
    m.allocate id size =
      (true, { m with allocations := m.allocations ++ [(id, size)] }) := by
  unfold BiologicalMemory.allocate
  rw [if_neg h]

/-- Case equation: deallocation succeeds when the id is present. -/
theorem BiologicalMemory.deallocate_ok {m : BiologicalMemory} {id : ℕ}
    (h : id ∈ m.allocations.map Prod.fst) :
    m.deallocate id =
      (true, { m with allocations := m.allocations.filter (fun a => decide (a.1 ≠ id)) }) := by
  unfold BiologicalMemory.deallocate
  rw [if_pos h]

/-- Case equation: deallocation fails when the id is absent. -/
theorem BiologicalMemory.deallocate_fail {m : BiologicalMemory} {id : ℕ}
    (h : id ∉ m.allocations.map Prod.fst) :
    m.deallocate id = (false, m) := by
  unfold BiologicalMemory.deallocate
  rw [if_neg h]

/-- C5: allocate returns false and mutates nothing when the size exceeds
free_space or the id is already allocated, and otherwise appends the
reservation and returns true; deallocate of an id that is not allocated
returns false and leaves the state (hence free_space) unchanged. -/
theorem BiologicalMemory.allocate_deallocate_failure_spec
    (m : BiologicalMemory) (id : ℕ) (size : ℚ) :
    ((m.free_space < size ∨ id ∈ m.allocations.map Prod.fst) →
      m.allocate id size = (false, m)) ∧
    (¬(m.free_space < size ∨ id ∈ m.allocations.map Prod.fst) →
      (m.allocate id size).1 = true ∧
      (m.allocate id size).2.allocations = m.allocations ++ [(id, size)]) ∧
    (id ∉ m.allocations.map Prod.fst →
      m.deallocate id = (false, m)) := by
  refine ⟨fun h => BiologicalMemory.allocate_fail h, fun h => ?_,
    fun h => BiologicalMemory.deallocate_fail h⟩
  rw [BiologicalMemory.allocate_ok h]
  exact ⟨rfl, rfl⟩

/-- Witness for C5 on the concrete states of the failure tests: allocating 200
units with only 100 free fails without mutation, and deallocating the unknown
id 999 fails without mutation. -/
theorem BiologicalMemory.allocate_deallocate_failure_spec_witness :
    (BiologicalMemory.mk 1000 [(1, 900)]).allocate 2 200 =
      (false, BiologicalMemory.mk 1000 [(1, 900)]) ∧
    (BiologicalMemory.mk 1000 []).deallocate 999 =
      (false, BiologicalMemory.mk 1000 []) :=
  ⟨(BiologicalMemory.allocate_deallocate_failure_spec
      (BiologicalMemory.mk 1000 [(1, 900)]) 2 200).1
      (Or.inl (by norm_num [BiologicalMemory.free_space])),
   (BiologicalMemory.allocate_deallocate_failure_spec
      (BiologicalMemory.mk 1000 []) 999 200).2.2 (by simp)⟩

/-- C4: for an id that is not currently allocated and a size within
free_space, allocate succeeds, an immediately following deallocate restores
the allocation table and hence free_space exactly, and a second allocate with
the same id before deallocation fails. -/
theorem BiologicalMemory.allocate_roundtrip_spec
    (m : BiologicalMemory) (id : ℕ) (size s2 : ℚ)
    (hid : id ∉ m.allocations.map Prod.fst) (hsz : size ≤ m.free_space) :
    (m.allocate id size).1 = true ∧
    ((m.allocate id size).2.deallocate id).1 = true ∧
    ((m.allocate id size).2.deallocate id).2.allocations = m.allocations ∧
    ((m.allocate id size).2.deallocate id).2.free_space = m.free_space ∧
    ((m.allocate id size).2.allocate id s2).1 = false := by
  have hcond : ¬(m.free_space < size ∨ id ∈ m.allocations.map Prod.fst) := by
    rintro (hlt | hin)
    · exact absurd hsz (not_le.mpr hlt)
    · exact hid hin
  have halloc := BiologicalMemory.allocate_ok hcond
  have hmem : id ∈ ((m.allocations ++ [(id, size)]).map Prod.fst) := by
    simp
  have hfilter : (m.allocations ++ [(id, size)]).filter (fun a => decide (a.1 ≠ id)) =
      m.allocations := by
    rw [List.filter_append]
    have h1 : m.allocations.filter (fun a => decide (a.1 ≠ id)) = m.allocations := by
      apply List.filter_eq_self.mpr
      intro a ha
      have : a.1 ≠ id := by
        intro hcontra
        exact hid (hcontra ▸ List.mem_map_of_mem Prod.fst ha)
      simpa using this
    have h2 : ([(id, size)] : List (ℕ × ℚ)).filter (fun a => decide (a.1 ≠ id)) = [] := by
      simp
    rw [h1, h2, List.append_nil]
  have hdealloc : ((m.allocate id size).2.deallocate id) =
      (true, { m with allocations := m.allocations }) := by
    rw [halloc]
    rw [BiologicalMemory.deallocate_ok hmem]
    simp only [hfilter]
  refine ⟨by rw [halloc], by rw [hdealloc], by rw [hdealloc], by rw [hdealloc], ?_⟩
  rw [halloc]
  rw [BiologicalMemory.allocate_fail (Or.inr hmem)]

/-- Witness for C4 on the concrete state of the deallocation test: allocating
100 units into an empty 1000-unit memory and immediately deallocating restores
free_space 1000, and re-allocating id 1 before deallocation fails. -/
theorem BiologicalMemory.allocate_roundtrip_spec_witness :
    ((BiologicalMemory.mk 1000 []).allocate 1 100).1 = true ∧
    (((BiologicalMemory.mk 1000 []).allocate 1 100).2.deallocate 1).2.free_space =
      (BiologicalMemory.mk 1000 []).free_space ∧
    (((BiologicalMemory.mk 1000 []).allocate 1 100).2.allocate 1 50).1 = false := by
  have h := BiologicalMemory.allocate_roundtrip_spec
    (BiologicalMemory.mk 1000 []) 1 100 50 (by simp)
    (by norm_num [BiologicalMemory.free_space])
  exact ⟨h.1, h.2.2.2.1, h.2.2.2.2⟩

/-! ## Claim C2: energy decay and age under iterated update -/

/-- Case equation: update is a no-op on a TERMINATED process. -/
theorem BioProcess.update_terminated {p : BioProcess} {dt : ℚ}
    (h : p.state = ProcessState.TERMINATED) : p.update dt = p := by
  unfold BioProcess.update
  rw [if_pos h]

/-- Case equation: update of a live process. -/
theorem BioProcess.update_alive {p : BioProcess} (dt : ℚ)
    (h : ¬ p.state = ProcessState.TERMINATED) :
    p.update dt = { p with
      age := p.age + dt,
      energy := max PROCESS_MIN_ENERGY (p.energy - PROCESS_ENERGY_COST_PER_TICK * dt),
      state := if max PROCESS_MIN_ENERGY (p.energy - PROCESS_ENERGY_COST_PER_TICK * dt) ≤ PROCESS_MIN_ENERGY
               then ProcessState.TERMINATED else p.state,
      genome := p.genome.map (fun ng => (ng.1, ng.2.express dt)) } := by
  unfold BioProcess.update
  rw [if_neg h]

/-- Closed form for iterated update(1) of a fresh process: energy decays by
the configured cost per tick, clamped at the configured minimum; age counts
the updates performed while alive; the process is TERMINATED exactly from the
200th update on (100 / 0.5 = 200 with the configured constants). -/
theorem updateN_closed_form (pid : ℕ) (name : String)
    (genome : List (String × Gene)) :
    ∀ n : ℕ,
      ((freshProcess pid name genome).updateN n).energy =
        max PROCESS_MIN_ENERGY (PROCESS_INITIAL_ENERGY - n * PROCESS_ENERGY_COST_PER_TICK) ∧
      ((freshProcess pid name genome).updateN n).age = ((min n 200 : ℕ) : ℚ) ∧
      (((freshProcess pid name genome).updateN n).state = ProcessState.TERMINATED ↔ 200 ≤ n) := by
  intro n
  induction n with
  | zero =>
      refine ⟨?_, ?_, ?_⟩
      · show PROCESS_INITIAL_ENERGY = _
        norm_num [PROCESS_INITIAL_ENERGY, PROCESS_MIN_ENERGY, PROCESS_ENERGY_COST_PER_TICK]
      · show (0 : ℚ) = _
        norm_num
      · show ProcessState.READY = ProcessState.TERMINATED ↔ _
        simp
  | succ n ih =>
      obtain ⟨ihE, ihA, ihS⟩ := ih
      rcases Nat.lt_or_ge n 200 with h200 | h200
      · -- still alive before this update
        have hst : ¬ ((freshProcess pid name genome).updateN n).state = ProcessState.TERMINATED := by
          rw [ihS]
          omega
        have hupd := BioProcess.update_alive 1 hst
        have hEn : ((freshProcess pid name genome).updateN n).energy =
            PROCESS_INITIAL_ENERGY - n * PROCESS_ENERGY_COST_PER_TICK := by
          rw [ihE]
          apply max_eq_right
          have hn : (n : ℚ) ≤ 199 := by exact_mod_cast Nat.le_of_lt_succ h200
          norm_num [PROCESS_INITIAL_ENERGY, PROCESS_MIN_ENERGY, PROCESS_ENERGY_COST_PER_TICK]
          linarith
        have hcast : ((n + 1 : ℕ) : ℚ) = (n : ℚ) + 1 := by push_cast; ring
        refine ⟨?_, ?_, ?_⟩
        · show ((freshProcess pid name genome).updateN (n + 1)).energy = _
          rw [show (freshProcess pid name genome).updateN (n + 1) =
              ((freshProcess pid name genome).updateN n).update 1 from rfl, hupd]
          show max PROCESS_MIN_ENERGY _ = _
          rw [hEn, hcast]
          ring_nf
        · show ((freshProcess pid name genome).updateN (n + 1)).age = _
          rw [show (freshProcess pid name genome).updateN (n + 1) =
              ((freshProcess pid name genome).updateN n).update 1 from rfl, hupd]
          show ((freshProcess pid name genome).updateN n).age + 1 = _
          rw [ihA]
          have h1 : min n 200 = n := min_eq_left (Nat.le_of_lt h200)
          have h2 : min (n + 1) 200 = n + 1 := min_eq_left h200
          rw [h1, h2]
          push_cast
          ring
        · show (((freshProcess pid name genome).updateN n).update 1).state = ProcessState.TERMINATED ↔ _
          rw [hupd]
          show (if max PROCESS_MIN_ENERGY _ ≤ PROCESS_MIN_ENERGY then ProcessState.TERMINATED
                else ((freshProcess pid name genome).updateN n).state) = ProcessState.TERMINATED ↔ _
          rw [hEn]
          rcases Nat.lt_or_ge (n + 1) 200 with h201 | h201
          · have hpos : PROCESS_MIN_ENERGY <
                max PROCESS_MIN_ENERGY (PROCESS_INITIAL_ENERGY - n * PROCESS_ENERGY_COST_PER_TICK - PROCESS_ENERGY_COST_PER_TICK * 1) := by
              apply lt_max_of_lt_right
              have hn : (n : ℚ) ≤ 198 := by exact_mod_cast Nat.le_of_lt_succ (Nat.lt_of_succ_lt_succ h201)
              norm_num [PROCESS_INITIAL_ENERGY, PROCESS_MIN_ENERGY, PROCESS_ENERGY_COST_PER_TICK]
              linarith
            rw [if_neg (not_le.mpr hpos)]
            constructor
            · intro hc
              exact absurd hc hst
            · intro hc
              omega
          · have hn : n = 199 := by omega
            subst hn
            have hz : PROCESS_INITIAL_ENERGY - (199 : ℕ) * PROCESS_ENERGY_COST_PER_TICK - PROCESS_ENERGY_COST_PER_TICK * 1 = 0 := by
              norm_num [PROCESS_INITIAL_ENERGY, PROCESS_ENERGY_COST_PER_TICK]
            rw [hz]
            rw [show max PROCESS_MIN_ENERGY (0 : ℚ) = 0 by norm_num [PROCESS_MIN_ENERGY]]
            rw [if_pos (by norm_num [PROCESS_MIN_ENERGY])]
            simp
      · -- already TERMINATED
        have hst : ((freshProcess pid name genome).updateN n).state = ProcessState.TERMINATED :=
          ihS.mpr h200
        have hupd : (freshProcess pid name genome).updateN (n + 1) =
            (freshProcess pid name genome).updateN n := BioProcess.update_terminated hst
        have hn : (200 : ℚ) ≤ (n : ℚ) := by exact_mod_cast h200
        refine ⟨?_, ?_, ?_⟩
        · rw [hupd, ihE]
          have hzero : ∀ m : ℚ, (200 : ℚ) ≤ m →
              max PROCESS_MIN_ENERGY (PROCESS_INITIAL_ENERGY - m * PROCESS_ENERGY_COST_PER_TICK) = PROCESS_MIN_ENERGY := by
            intro m hm
            apply max_eq_left
            norm_num [PROCESS_INITIAL_ENERGY, PROCESS_MIN_ENERGY, PROCESS_ENERGY_COST_PER_TICK]
            linarith
          rw [hzero _ hn, hzero]
          push_cast
          linarith
        · rw [hupd, ihA]
          have h1 : min n 200 = 200 := min_eq_right h200
          have h2 : min (n + 1) 200 = 200 := min_eq_right (Nat.le_succ_of_le h200)
          rw [h1, h2]
        · rw [hupd, ihS]
          omega

/-- C2 (amended): for a freshly constructed process with the configured
constants, the energy after n updates with dt = 1 is the initial energy minus
n times the per-tick cost, clamped at the minimum, for every n; and every
update performed while the process is not yet TERMINATED strictly increases
its age (updates after termination are no-ops, so the strict increase stops
there). -/
theorem BioProcess.update_energy_age_spec (pid : ℕ) (name : String)
    (genome : List (String × Gene)) (n : ℕ) :
    ((freshProcess pid name genome).updateN n).energy =
      max PROCESS_MIN_ENERGY (PROCESS_INITIAL_ENERGY - n * PROCESS_ENERGY_COST_PER_TICK) ∧
    (((freshProcess pid name genome).updateN n).state ≠ ProcessState.TERMINATED →
      ((freshProcess pid name genome).updateN n).age <
        ((freshProcess pid name genome).updateN (n + 1)).age) := by
  obtain ⟨hE, hA, hS⟩ := updateN_closed_form pid name genome n
  obtain ⟨_, hA1, _⟩ := updateN_closed_form pid name genome (n + 1)
  refine ⟨hE, fun hst => ?_⟩
  have h200 : n < 200 := by
    rcases Nat.lt_or_ge n 200 with h | h
    · exact h
    · exact absurd (hS.mpr h) hst
  rw [hA, hA1]
  have h1 : min n 200 = n := min_eq_left (Nat.le_of_lt h200)
  have h2 : min (n + 1) 200 = n + 1 := min_eq_left h200
  rw [h1, h2]
  exact_mod_cast Nat.lt_succ_self n

/-- Witness for the amended C2 at n = 3: the fourth update of a live fresh
process strictly increases its age. -/
theorem BioProcess.update_energy_age_spec_witness :
    ((freshProcess 2 "TestOrganism" []).updateN 3).age <
      ((freshProcess 2 "TestOrganism" []).updateN 4).age :=
  (BioProcess.update_energy_age_spec 2 "TestOrganism" [] 3).2
    (fun h => by
      have := (updateN_closed_form 2 "TestOrganism" [] 3).2.2.mp h
      omega)

/-- Counterexample refuting C2 as stated: after the process terminates (the
200th update drives energy to the minimum), a further update does not
increase the age, so not every update strictly increases it. -/
theorem BioProcess.update_age_strict_counterexample :
    ¬ (((freshProcess 1 "TestOrganism" []).updateN 200).age <
       ((freshProcess 1 "TestOrganism" []).updateN 201).age) := by
  have h200 := (updateN_closed_form 1 "TestOrganism" [] 200).2.1
  have h201 := (updateN_closed_form 1 "TestOrganism" [] 201).2.1
  rw [h200, h201]
  norm_num

/-! ## Claim C9: gene expression level invariant and saturation -/

/-- Projection equation for Gene.express. -/
theorem Gene.express_level (g : Gene) (dt : ℚ) :
    (g.express dt).expression_level =
      min GENE_EXPRESSION_MAX (g.expression_level + GENE_EXPRESSION_RATE * dt) := rfl

/-- Bounds are preserved by any sequence of expressions with nonnegative time
steps. -/
theorem expressSeq_bounds : ∀ (dts : List ℚ) (g : Gene),
    0 ≤ g.expression_level → g.expression_level ≤ GENE_EXPRESSION_MAX →
    (∀ d ∈ dts, 0 ≤ d) →
    0 ≤ (g.expressSeq dts).expression_level ∧
      (g.expressSeq dts).expression_level ≤ GENE_EXPRESSION_MAX
  | [], g, h0, h1, _ => ⟨h0, h1⟩
  | d :: dts, g, h0, h1, hd => by
      have hd0 : 0 ≤ d := hd d (List.mem_cons_self d dts)
      have e0 : 0 ≤ (g.express d).expression_level := by
        rw [Gene.express_level]
        apply le_min
        · norm_num [GENE_EXPRESSION_MAX]
        · have : 0 ≤ GENE_EXPRESSION_RATE * d :=
            mul_nonneg (by norm_num [GENE_EXPRESSION_RATE]) hd0
          linarith
      have e1 : (g.express d).expression_level ≤ GENE_EXPRESSION_MAX := by
        rw [Gene.express_level]
        exact min_le_left _ _
      have hrest : ∀ x ∈ dts, (0:ℚ) ≤ x := fun x hx => hd x (List.mem_cons_of_mem d hx)
      have := expressSeq_bounds dts (g.express d) e0 e1 hrest
      simpa [Gene.expressSeq, List.foldl_cons] using this

/-- Closed form for repeated expression with unit time steps from a level in
range. -/
theorem expressSeq_replicate_one : ∀ (k : ℕ) (g : Gene),
    0 ≤ g.expression_level → g.expression_level ≤ GENE_EXPRESSION_MAX →
    (g.expressSeq (List.replicate k 1)).expression_level =
      min GENE_EXPRESSION_MAX (g.expression_level + k * GENE_EXPRESSION_RATE)
  | 0, g, _, h1 => by
      show g.expression_level =
        min GENE_EXPRESSION_MAX (g.expression_level + ((0:ℕ) : ℚ) * GENE_EXPRESSION_RATE)
      rw [Nat.cast_zero, zero_mul, add_zero, min_eq_right h1]
  | k + 1, g, h0, h1 => by
      have hstep : (g.express 1).expression_level =
          min GENE_EXPRESSION_MAX (g.expression_level + GENE_EXPRESSION_RATE) := by
        rw [Gene.express_level]
        ring_nf
      have e0 : 0 ≤ (g.express 1).expression_level := by
        rw [hstep]
        apply le_min
        · norm_num [GENE_EXPRESSION_MAX]
        · have : (0:ℚ) ≤ GENE_EXPRESSION_RATE := by norm_num [GENE_EXPRESSION_RATE]
          linarith
      have e1 : (g.express 1).expression_level ≤ GENE_EXPRESSION_MAX := by
        rw [hstep]
        exact min_le_left _ _
      have ih := expressSeq_replicate_one k (g.express 1) e0 e1
      have hfold : g.expressSeq (List.replicate (k + 1) 1) =
          (g.express 1).expressSeq (List.replicate k 1) := by
        rw [List.replicate_succ]
        rfl
      rw [hfold, ih, hstep]
      have hk : (0:ℚ) ≤ (k : ℚ) * GENE_EXPRESSION_RATE :=
        mul_nonneg (by positivity) (by norm_num [GENE_EXPRESSION_RATE])
      have hcast : ((k + 1 : ℕ) : ℚ) = (k : ℚ) + 1 := by push_cast; ring
      rcases le_or_lt (g.expression_level + GENE_EXPRESSION_RATE) GENE_EXPRESSION_MAX with h | h
      · rw [min_eq_right h, hcast]
        ring_nf
      · rw [min_eq_left (le_of_lt h)]
        have hr : (0:ℚ) ≤ GENE_EXPRESSION_RATE := by norm_num [GENE_EXPRESSION_RATE]
        rw [min_eq_left (by linarith), min_eq_left ?_]
        rw [hcast]
        nlinarith
  termination_by k => k

/-- C9: starting from any expression level in range, no sequence of
expressions with nonnegative time steps pushes the level above the configured
maximum or below zero, and repeated unit expression of a fresh gene saturates
exactly at the maximum (within 10 calls, and it stays there). -/
theorem Gene.expression_invariant_spec (g : Gene) (dts : List ℚ)
    (h0 : 0 ≤ g.expression_level) (h1 : g.expression_level ≤ GENE_EXPRESSION_MAX)
    (hd : ∀ d ∈ dts, 0 ≤ d) :
    (0 ≤ (g.expressSeq dts).expression_level ∧
      (g.expressSeq dts).expression_level ≤ GENE_EXPRESSION_MAX) ∧
    ∀ (name seq : String) (n : ℕ),
      ((Gene.create name seq).expressSeq (List.replicate (n + 10) 1)).expression_level =
        GENE_EXPRESSION_MAX := by
  refine ⟨expressSeq_bounds dts g h0 h1 hd, fun name seq n => ?_⟩
  have h := expressSeq_replicate_one (n + 10) (Gene.create name seq)
    (by norm_num [Gene.create]) (by norm_num [Gene.create, GENE_EXPRESSION_MAX])
  rw [h]
  apply min_eq_left
  have : (10 : ℚ) ≤ ((n + 10 : ℕ) : ℚ) := by
    push_cast
    linarith [Nat.cast_nonneg (α := ℚ) n]
  norm_num [Gene.create, GENE_EXPRESSION_MAX, GENE_EXPRESSION_RATE]
  linarith

/-- Witness for C9: the gene of the test, expressed with dt = 1 and then 100
times as in TestGene.test_gene_expression_saturation, stays in range and
saturates exactly at 1.0. -/
theorem Gene.expression_invariant_spec_witness :
    (0 ≤ ((Gene.create "TEST_GENE" "ATCGATCG").expressSeq [1]).expression_level ∧
      ((Gene.create "TEST_GENE" "ATCGATCG").expressSeq [1]).expression_level ≤
        GENE_EXPRESSION_MAX) ∧
    ((Gene.create "TEST_GENE" "ATCGATCG").expressSeq (List.replicate 100 1)).expression_level =
      GENE_EXPRESSION_MAX := by
  have h := Gene.expression_invariant_spec (Gene.create "TEST_GENE" "ATCGATCG") [1]
    (by norm_num [Gene.create]) (by norm_num [Gene.create, GENE_EXPRESSION_MAX])
    (by intro d hd2; simp at hd2; simp [hd2])
  exact ⟨h.1, h.2 "TEST_GENE" "ATCGATCG" 90⟩

/-! ## Claim C3: schedule selects the lowest (priority, pid) -/

/-- The selection order is reflexive. -/
theorem lowerPriority_refl (p : BioProcess) : lowerPriority p p :=
  Or.inr ⟨rfl, le_refl _⟩

/-- The selection order is transitive. -/
theorem lowerPriority_trans {p q r : BioProcess}
    (h1 : lowerPriority p q) (h2 : lowerPriority q r) : lowerPriority p r := by
  rcases h1 with h1 | ⟨h1, h1i⟩
  · rcases h2 with h2 | ⟨h2, _⟩
    · exact Or.inl (h1.trans h2)
    · exact Or.inl (h2 ▸ h1)
  · rcases h2 with h2 | ⟨h2, h2i⟩
    · exact Or.inl (h1 ▸ h2)
    · exact Or.inr ⟨h1.trans h2, h1i.trans h2i⟩

/-- pickBetter returns one of its two arguments. -/
theorem pickBetter_eq_or (p q : BioProcess) :
    pickBetter p q = p ∨ pickBetter p q = q := by
  unfold pickBetter
  split
  · exact Or.inr rfl
  · exact Or.inl rfl

/-- pickBetter is at most its left argument in the selection order. -/
theorem pickBetter_le_left (p q : BioProcess) :
    lowerPriority (pickBetter p q) p := by
  unfold pickBetter
  split
  · rename_i h
    rcases h with h | ⟨h, hi⟩
    · exact Or.inl h
    · exact Or.inr ⟨h, le_of_lt hi⟩
  · exact lowerPriority_refl p

/-- pickBetter is at most its right argument in the selection order. -/
theorem pickBetter_le_right (p q : BioProcess) :
    lowerPriority (pickBetter p q) q := by
  unfold pickBetter
  split
  · exact lowerPriority_refl q
  · rename_i h
    push_neg at h
    rcases lt_or_eq_of_le h.1 with hlt | heq
    · exact Or.inl hlt
    · exact Or.inr ⟨heq, h.2 heq.symm⟩

/-- The fold of pickBetter lands in the candidate list. -/
theorem foldl_pickBetter_mem : ∀ (l : List BioProcess) (p : BioProcess),
    l.foldl pickBetter p ∈ p :: l
  | [], p => List.mem_singleton.mpr rfl
  | q :: l, p => by
      have h := foldl_pickBetter_mem l (pickBetter p q)
      rw [List.foldl_cons]
      rcases List.mem_cons.mp h with h | h
      · rcases pickBetter_eq_or p q with he | he
        · rw [h, he]
          exact List.mem_cons_self _ _
        · rw [h, he]
          exact List.mem_cons_of_mem _ (List.mem_cons_self _ _)
      · exact List.mem_cons_of_mem _ (List.mem_cons_of_mem _ h)

/-- The fold of pickBetter is minimal among the candidates. -/
theorem foldl_pickBetter_le : ∀ (l : List BioProcess) (p q : BioProcess),
    q ∈ p :: l → lowerPriority (l.foldl pickBetter p) q
  | [], p, q, hq => by
      have hqp : q = p := by simpa using hq
      subst hqp
      exact lowerPriority_refl q
  | a :: l, p, q, hq => by
      rw [List.foldl_cons]
      have hhead : lowerPriority ((l.foldl pickBetter (pickBetter p a))) (pickBetter p a) :=
        foldl_pickBetter_le l (pickBetter p a) (pickBetter p a) (List.mem_cons_self _ _)
      rcases List.mem_cons.mp hq with h | h
      · rw [h]
        exact lowerPriority_trans hhead (pickBetter_le_left p a)
      · rcases List.mem_cons.mp h with h2 | h2
        · rw [h2]
          exact lowerPriority_trans hhead (pickBetter_le_right p a)
        · exact foldl_pickBetter_le l (pickBetter p a) q (List.mem_cons_of_mem _ h2)

/-- A scheduled process is a registered, non-terminated process. -/
theorem schedule_mem {s : ProcessScheduler} {p : BioProcess}
    (h : s.schedule = some p) :
    p ∈ s.processes ∧ p.state ≠ ProcessState.TERMINATED := by
  unfold ProcessScheduler.schedule at h
  rcases hfil : s.processes.filter (fun p => decide (p.state ≠ ProcessState.TERMINATED)) with _ | ⟨hd, tl⟩
  · rw [hfil] at h
    exact absurd h (by simp)
  · rw [hfil] at h
    have hp : p = tl.foldl pickBetter hd := by
      simpa using h.symm
    have hmem : p ∈ hd :: tl := hp ▸ foldl_pickBetter_mem tl hd
    rw [← hfil] at hmem
    have := List.mem_filter.mp hmem
    refine ⟨this.1, by simpa using this.2⟩

/-- C3: schedule returns none exactly when every registered process is
TERMINATED; otherwise it returns a registered non-TERMINATED process that is
minimal in the order (priority value, then pid) among all non-TERMINATED
processes.  In this model schedule has type ProcessScheduler to Option
BioProcess: it returns no updated state, so it mutates nothing. -/
theorem ProcessScheduler.schedule_spec (s : ProcessScheduler) :
    (s.schedule = none ↔ ∀ p ∈ s.processes, p.state = ProcessState.TERMINATED) ∧
    (∀ p, s.schedule = some p →
      p ∈ s.processes ∧ p.state ≠ ProcessState.TERMINATED ∧
      ∀ q ∈ s.processes, q.state ≠ ProcessState.TERMINATED → lowerPriority p q) := by
  constructor
  · constructor
    · intro h p hp
      unfold ProcessScheduler.schedule at h
      rcases hfil : s.processes.filter (fun p => decide (p.state ≠ ProcessState.TERMINATED)) with _ | ⟨hd, tl⟩
      · have := List.filter_eq_nil_iff.mp hfil p hp
        simpa using this
      · rw [hfil] at h
        simp at h
    · intro hall
      unfold ProcessScheduler.schedule
      have hfil : s.processes.filter (fun p => decide (p.state ≠ ProcessState.TERMINATED)) = [] := by
        apply List.filter_eq_nil_iff.mpr
        intro p hp
        simp [hall p hp]
      rw [hfil]
  · intro p hsome
    obtain ⟨hmem, hstate⟩ := schedule_mem hsome
    refine ⟨hmem, hstate, fun q hq hqs => ?_⟩
    unfold ProcessScheduler.schedule at hsome
    rcases hfil : s.processes.filter (fun p => decide (p.state ≠ ProcessState.TERMINATED)) with _ | ⟨hd, tl⟩
    · rw [hfil] at hsome
      exact absurd hsome (by simp)
    · rw [hfil] at hsome
      have hp : p = tl.foldl pickBetter hd := by
        simpa using hsome.symm
      have hqfil : q ∈ hd :: tl := by
        rw [← hfil]
        exact List.mem_filter.mpr ⟨hq, by simpa using hqs⟩
      exact hp ▸ foldl_pickBetter_le tl hd q hqfil

/-- Witness for C3 on the scenario of test_scheduling_priority: with Org1 at
priority 5 and Org2 at priority 1, the scheduled process is Org2 (pid 1), and
it is preferred over Org1. -/
theorem ProcessScheduler.schedule_spec_witness :
    BioProcess.mk 1 "Org2" ProcessState.READY 100 0 [] 1 ∈
      (ProcessScheduler.mk
        [BioProcess.mk 0 "Org1" ProcessState.READY 100 0 [] 5,
         BioProcess.mk 1 "Org2" ProcessState.READY 100 0 [] 1] 2).processes ∧
    lowerPriority (BioProcess.mk 1 "Org2" ProcessState.READY 100 0 [] 1)
      (BioProcess.mk 0 "Org1" ProcessState.READY 100 0 [] 5) := by
  have h := (ProcessScheduler.schedule_spec
    (ProcessScheduler.mk
      [BioProcess.mk 0 "Org1" ProcessState.READY 100 0 [] 5,
       BioProcess.mk 1 "Org2" ProcessState.READY 100 0 [] 1] 2)).2
    (BioProcess.mk 1 "Org2" ProcessState.READY 100 0 [] 1)
    (by rfl)
  exact ⟨h.1, h.2.2 _ (by simp) (by simp)⟩

/-! ## Claim C7: termination is permanent for the scheduler -/

/-- Update preserves the pid of a process. -/
theorem BioProcess.update_pid (p : BioProcess) (dt : ℚ) :
    (p.update dt).pid = p.pid := by
  unfold BioProcess.update
  split
  · rfl
  · rfl

/-- Every scheduler operation preserves the DeadPid invariant. -/
theorem DeadPid_apply {s : ProcessScheduler} {pid : ℕ} (h : DeadPid s pid) :
    ∀ op : SchedOp, DeadPid (op.apply s) pid := by
  obtain ⟨hlt, hterm, hbound⟩ := h
  intro op
  cases op with
  | create name =>
      refine ⟨Nat.lt_succ_of_lt hlt, ?_, ?_⟩
      · intro p hp hpid
        rcases List.mem_append.mp hp with hp | hp
        · exact hterm p hp hpid
        · have hpe : p = BioProcess.create s.next_pid name := by simpa using hp
          rw [hpe] at hpid
          exact absurd hpid.symm (Nat.ne_of_lt hlt)
      · intro p hp
        rcases List.mem_append.mp hp with hp | hp
        · exact Nat.lt_succ_of_lt (hbound p hp)
        · have hpe : p = BioProcess.create s.next_pid name := by simpa using hp
          rw [hpe]
          exact Nat.lt_succ_self _
  | terminate pid2 =>
      show DeadPid (s.terminate_process pid2).2 pid
      unfold ProcessScheduler.terminate_process
      rcases hfind : s.get_process pid2 with _ | p2
      · exact ⟨hlt, hterm, hbound⟩
      · refine ⟨hlt, ?_, ?_⟩
        · intro p hp hpid
          obtain ⟨q, hq, rfl⟩ := List.mem_map.mp hp
          by_cases hc : q.pid = pid2
          · rw [if_pos hc]
          · rw [if_neg hc] at hpid ⊢
            exact hterm q hq hpid
        · intro p hp
          obtain ⟨q, hq, rfl⟩ := List.mem_map.mp hp
          by_cases hc : q.pid = pid2
          · rw [if_pos hc]
            exact hbound q hq
          · rw [if_neg hc]
            exact hbound q hq
  | setPriority pid2 prio =>
      refine ⟨hlt, ?_, ?_⟩
      · intro p hp hpid
        obtain ⟨q, hq, rfl⟩ := List.mem_map.mp hp
        by_cases hc : q.pid = pid2
        · rw [if_pos hc] at hpid ⊢
          exact hterm q hq hpid
        · rw [if_neg hc] at hpid ⊢
          exact hterm q hq hpid
      · intro p hp
        obtain ⟨q, hq, rfl⟩ := List.mem_map.mp hp
        by_cases hc : q.pid = pid2
        · rw [if_pos hc]
          exact hbound q hq
        · rw [if_neg hc]
          exact hbound q hq
  | tick dt =>
      refine ⟨hlt, ?_, ?_⟩
      · intro p hp hpid
        obtain ⟨q, hq, rfl⟩ := List.mem_map.mp hp
        rw [BioProcess.update_pid] at hpid
        have hqterm : q.state = ProcessState.TERMINATED := hterm q hq hpid
        rw [BioProcess.update_terminated hqterm]
        exact hqterm
      · intro p hp
        obtain ⟨q, hq, rfl⟩ := List.mem_map.mp hp
        rw [BioProcess.update_pid]
        exact hbound q hq

/-- A sequence of scheduler operations preserves the DeadPid invariant. -/
theorem DeadPid_applyOps {pid : ℕ} :
    ∀ (ops : List SchedOp) (s : ProcessScheduler), DeadPid s pid →
      DeadPid (applyOps s ops) pid
  | [], _, h => h
  | op :: ops, s, h => DeadPid_applyOps ops (op.apply s) (DeadPid_apply h op)

/-- schedule never returns a process whose pid satisfies the DeadPid
invariant. -/
theorem schedule_not_dead {s : ProcessScheduler} {pid : ℕ} (h : DeadPid s pid)
    {q : BioProcess} (hq : s.schedule = some q) : q.pid ≠ pid := by
  obtain ⟨hmem, hstate⟩ := schedule_mem hq
  intro hpid
  exact hstate (h.2.1 q hmem hpid)

/-- C7: terminate_process returns true when the pid names a registered
process that is not already terminated, returns false when the pid is
unknown, and once it has succeeded no schedule call ever returns that pid
again, whatever scheduler operations happen in between (the hypothesis that
registered pids are below the pid counter holds for every scheduler the
kernel can reach). -/
theorem ProcessScheduler.terminate_schedule_spec (s : ProcessScheduler)
    (pid : ℕ) (hbound : ∀ p ∈ s.processes, p.pid < s.next_pid) :
    ((∃ p ∈ s.processes, p.pid = pid ∧ p.state ≠ ProcessState.TERMINATED) →
      (s.terminate_process pid).1 = true) ∧
    ((∀ p ∈ s.processes, p.pid ≠ pid) → (s.terminate_process pid).1 = false) ∧
    ((s.terminate_process pid).1 = true →
      ∀ (ops : List SchedOp) (q : BioProcess),
        (applyOps (s.terminate_process pid).2 ops).schedule = some q →
        q.pid ≠ pid) := by
  refine ⟨fun hex => ?_, fun hnone => ?_, fun htrue => ?_⟩
  · obtain ⟨p, hp, hpid, _⟩ := hex
    unfold ProcessScheduler.terminate_process
    rcases hfind : s.get_process pid with _ | p2
    · unfold ProcessScheduler.get_process at hfind
      have := List.find?_eq_none.mp hfind p hp
      simp [hpid] at this
    · rfl
  · unfold ProcessScheduler.terminate_process
    rcases hfind : s.get_process pid with _ | p2
    · rfl
    · unfold ProcessScheduler.get_process at hfind
      have hmem := List.mem_of_find?_eq_some hfind
      have hpid : p2.pid = pid := by
        have := List.find?_some hfind
        simpa using this
      exact absurd hpid (hnone p2 hmem)
  · intro ops q hq
    have hdead : DeadPid (s.terminate_process pid).2 pid := by
      unfold ProcessScheduler.terminate_process at htrue ⊢
      rcases hfind : s.get_process pid with _ | p2
      · rw [hfind] at htrue
        simp at htrue
      · unfold ProcessScheduler.get_process at hfind
        have hmem := List.mem_of_find?_eq_some hfind
        have hpid : p2.pid = pid := by
          have := List.find?_some hfind
          simpa using this
        refine ⟨hpid ▸ hbound p2 hmem, ?_, ?_⟩
        · intro p hp hp2
          obtain ⟨r, hr, rfl⟩ := List.mem_map.mp hp
          by_cases hc : r.pid = pid
          · rw [if_pos hc]
          · rw [if_neg hc] at hp2
            exact absurd hp2 hc
        · intro p hp
          obtain ⟨r, hr, rfl⟩ := List.mem_map.mp hp
          by_cases hc : r.pid = pid
          · rw [if_pos hc]
            exact hbound r hr
          · rw [if_neg hc]
            exact hbound r hr
    exact schedule_not_dead (DeadPid_applyOps ops _ hdead) hq

/-- Witness for C7 on the scenario of test_process_termination: terminating
pid 0 succeeds, and after a further process creation schedule returns the new
process, whose pid is not 0. -/
theorem ProcessScheduler.terminate_schedule_spec_witness :
    ((ProcessScheduler.mk [BioProcess.create 0 "TestOrg"] 1).terminate_process 0).1 = true ∧
    (BioProcess.create 1 "A").pid ≠ 0 := by
  have h := ProcessScheduler.terminate_schedule_spec
    (ProcessScheduler.mk [BioProcess.create 0 "TestOrg"] 1) 0
    (by intro p hp; simp at hp; simp [hp, BioProcess.create])
  refine ⟨h.1 ⟨BioProcess.create 0 "TestOrg", by simp, rfl, by simp [BioProcess.create]⟩, ?_⟩
  exact h.2.2 (h.1 ⟨BioProcess.create 0 "TestOrg", by simp, rfl, by simp [BioProcess.create]⟩)
    [SchedOp.create "A"] (BioProcess.create 1 "A") (by rfl)

/-! ## Claim C1: chronological, stable event dispatch -/

/-- Filtering an enumeration on the element and dropping the indices is
filtering the list. -/
theorem enumFrom_filter_map_snd (p : BiologicalEvent → Bool) :
    ∀ (n : ℕ) (l : List BiologicalEvent),
      ((List.enumFrom n l).filter (fun ie => p ie.2)).map Prod.snd = l.filter p
  | _, [] => rfl
  | n, a :: l => by
      rw [List.enumFrom_cons, List.filter_cons, List.filter_cons]
      by_cases hp : p a = true
      · rw [if_pos hp, if_pos hp, List.map_cons, enumFrom_filter_map_snd p (n + 1) l]
      · rw [if_neg hp, if_neg hp, enumFrom_filter_map_snd p (n + 1) l]

/-- Enumeration indices are strictly increasing. -/
theorem enumFrom_pairwise_fst_lt : ∀ (n : ℕ) (l : List BiologicalEvent),
    List.Pairwise (fun a b : ℕ × BiologicalEvent => a.1 < b.1) (List.enumFrom n l)
  | _, [] => List.Pairwise.nil
  | n, a :: l => by
      rw [List.enumFrom_cons]
      refine List.Pairwise.cons ?_ (enumFrom_pairwise_fst_lt (n + 1) l)
      intro b hb
      have hmem := List.mem_enumFrom hb
      exact Nat.lt_of_succ_le hmem.1

/-- The sorted due list is a permutation of the due subset of the indexed
queue. -/
theorem sortedDueIdx_perm (queue : List BiologicalEvent) (t : ℚ) :
    (sortedDueIdx queue t).Perm
      (queue.enum.filter (fun ie => decide (ie.2.timestamp ≤ t))) :=
  List.perm_insertionSort _ _

/-- The sorted due list is sorted in the dispatch order. -/
theorem sortedDueIdx_sorted (queue : List BiologicalEvent) (t : ℚ) :
    List.Pairwise dueBefore (sortedDueIdx queue t) :=
  List.sorted_insertionSort _ _

/-- The dispatch list is a permutation of the due events of the queue. -/
theorem dispatchList_perm (queue : List BiologicalEvent) (t : ℚ) :
    (dispatchList queue t).Perm
      (queue.filter (fun e => decide (e.timestamp ≤ t))) := by
  have h := (sortedDueIdx_perm queue t).map Prod.snd
  have heq : (queue.enum.filter (fun ie => decide (ie.2.timestamp ≤ t))).map Prod.snd =
      queue.filter (fun e => decide (e.timestamp ≤ t)) := by
    exact enumFrom_filter_map_snd (fun e => decide (e.timestamp ≤ t)) 0 queue
  rw [heq] at h
  exact h

/-- Every dispatched event comes from the queue and is due. -/
theorem dispatchList_due {queue : List BiologicalEvent} {t : ℚ}
    {e : BiologicalEvent} (he : e ∈ dispatchList queue t) :
    e ∈ queue ∧ e.timestamp ≤ t := by
  have h := (dispatchList_perm queue t).mem_iff.mp he
  have h2 := List.mem_filter.mp h
  exact ⟨h2.1, by simpa using h2.2⟩

/-- The dispatch list is in non-decreasing timestamp order. -/
theorem dispatchList_sorted (queue : List BiologicalEvent) (t : ℚ) :
    List.Pairwise (fun e f : BiologicalEvent => e.timestamp ≤ f.timestamp)
      (dispatchList queue t) := by
  unfold dispatchList
  rw [List.pairwise_map]
  apply (sortedDueIdx_sorted queue t).imp
  intro a b hab
  rcases hab with h | ⟨h, _⟩
  · exact le_of_lt h
  · exact le_of_eq h

/-- Stability: in the sorted due list, equal timestamps keep their emission
order strictly. -/
theorem sortedDueIdx_stable (queue : List BiologicalEvent) (t : ℚ) :
    List.Pairwise (fun a b : ℕ × BiologicalEvent =>
      a.2.timestamp < b.2.timestamp ∨ (a.2.timestamp = b.2.timestamp ∧ a.1 < b.1))
      (sortedDueIdx queue t) := by
  have hsorted := sortedDueIdx_sorted queue t
  have hfiltered : List.Pairwise (fun a b : ℕ × BiologicalEvent => a.1 < b.1)
      (queue.enum.filter (fun ie => decide (ie.2.timestamp ≤ t))) := by
    exact List.Pairwise.sublist (List.filter_sublist _) (enumFrom_pairwise_fst_lt 0 queue)
  have hne : List.Pairwise (fun a b : ℕ × BiologicalEvent => a.1 ≠ b.1)
      (sortedDueIdx queue t) := by
    have hsym : ∀ {x y : ℕ × BiologicalEvent}, x.1 ≠ y.1 → y.1 ≠ x.1 :=
      fun h => h.symm
    exact (List.Perm.pairwise_iff hsym (sortedDueIdx_perm queue t)).mpr
      (hfiltered.imp fun h => Nat.ne_of_lt h)
  apply (hsorted.and hne).imp
  intro a b hab
  rcases hab with ⟨h | ⟨heq, hle⟩, hne2⟩
  · exact Or.inl h
  · exact Or.inr ⟨heq, lt_of_le_of_ne hle hne2⟩

/-- Projection equation: the queue after process_events keeps exactly the
events that are not yet due. -/
theorem process_events_queue (em : EventManager) (t : ℚ) :
    (em.process_events t).2.event_queue =
      em.event_queue.filter (fun e => decide (t < e.timestamp)) := rfl

/-- Projection equation: the invocation log of process_events. -/
theorem process_events_log (em : EventManager) (t : ℚ) :
    (em.process_events t).1 =
      (dispatchList em.event_queue t).flatMap
        (fun e => (em.subscribers e.event_type).map (fun h => (h, e))) := rfl

/-- Every handler invocation is for a due event. -/
theorem process_events_log_due {em : EventManager} {t : ℚ}
    {he : ℕ × BiologicalEvent} (h : he ∈ (em.process_events t).1) :
    he.2.timestamp ≤ t := by
  rw [process_events_log] at h
  obtain ⟨e, hmem, hin⟩ := List.mem_flatMap.mp h
  obtain ⟨hid, _, rfl⟩ := List.mem_map.mp hin
  exact (dispatchList_due hmem).2

/-- Evaluation of the concrete ordering scenario: the subscribed handler is
invoked at timestamps 1, 2, 3 in that order and the queue is left empty. -/
theorem emTest_eval :
    (emTest.process_events 4).1.map (fun he => he.2.timestamp) = [1, 2, 3] ∧
    (emTest.process_events 4).2.event_queue = [] := by
  constructor
  · norm_num [emTest, EventManager.process_events, dispatchList, sortedDueIdx,
      EventManager.emit, EventManager.subscribe, EventManager.init,
      List.insertionSort, List.orderedInsert, dueBefore, List.enum,
      List.enumFrom, List.filter_cons]
  · norm_num [emTest, EventManager.process_events, EventManager.emit,
      EventManager.subscribe, EventManager.init, List.filter_cons]

/-- C1: process_events(t) invokes handlers only for events with timestamp at
most t; the dispatched events are in non-decreasing timestamp order with ties
broken strictly by emission order; the dispatched events are exactly (a
permutation of) the due events of the queue, and the queue afterwards holds
exactly the not-yet-due events; in the concrete scenario of
test_event_ordering, emitting timestamps 3, 1, 2 and processing at time 4
invokes the subscribed handler at timestamps 1, 2, 3 and empties the queue. -/
theorem EventManager.process_events_spec (em : EventManager) (t : ℚ) :
    (∀ he ∈ (em.process_events t).1, he.2.timestamp ≤ t) ∧
    List.Pairwise (fun e f : BiologicalEvent => e.timestamp ≤ f.timestamp)
      (dispatchList em.event_queue t) ∧
    List.Pairwise (fun a b : ℕ × BiologicalEvent =>
      a.2.timestamp < b.2.timestamp ∨ (a.2.timestamp = b.2.timestamp ∧ a.1 < b.1))
      (sortedDueIdx em.event_queue t) ∧
    (dispatchList em.event_queue t).Perm
      (em.event_queue.filter (fun e => decide (e.timestamp ≤ t))) ∧
    (em.process_events t).2.event_queue =
      em.event_queue.filter (fun e => decide (t < e.timestamp)) ∧
    (emTest.process_events 4).1.map (fun he => he.2.timestamp) = [1, 2, 3] ∧
    (emTest.process_events 4).2.event_queue = [] :=
  ⟨fun _ h => process_events_log_due h,
   dispatchList_sorted em.event_queue t,
   sortedDueIdx_stable em.event_queue t,
   dispatchList_perm em.event_queue t,
   process_events_queue em t,
   emTest_eval.1,
   emTest_eval.2⟩

/-- Witness for C1 at the concrete scenario: the invocation of the handler at
the event with timestamp 1 is due at time 4, and the concrete invocation
order is 1, 2, 3. -/
theorem EventManager.process_events_spec_witness :
    ({ timestamp := 1, event_type := EventType.CELL_DIVISION, source_pid := 1 } :
        BiologicalEvent).timestamp ≤ 4 ∧
    (emTest.process_events 4).1.map (fun he => he.2.timestamp) = [1, 2, 3] := by
  have h := EventManager.process_events_spec emTest 4
  refine ⟨h.1 (0, { timestamp := 1, event_type := EventType.CELL_DIVISION, source_pid := 1 }) ?_,
    h.2.2.2.2.2.1⟩
  rw [process_events_log]
  have hd : ({ timestamp := 1, event_type := EventType.CELL_DIVISION, source_pid := 1 } :
      BiologicalEvent) ∈ dispatchList emTest.event_queue 4 := by
    norm_num [emTest, dispatchList, sortedDueIdx,
      EventManager.emit, EventManager.subscribe, EventManager.init,
      List.insertionSort, List.orderedInsert, dueBefore, List.enum,
      List.enumFrom, List.filter_cons]
  refine List.mem_flatMap.mpr ⟨_, hd, ?_⟩
  norm_num [emTest, EventManager.emit, EventManager.subscribe, EventManager.init]

/-! ## Claim C6: kernel ticks -/

/-- TickExtension is reflexive. -/
theorem TickExtension_refl (os : BioOS) (t : ℚ) : TickExtension os os t :=
  ⟨rfl, rfl, rfl, rfl, rfl, rfl, rfl, [], (List.append_nil _).symm, by simp⟩

/-- TickExtension is transitive. -/
theorem TickExtension_trans {os os2 os3 : BioOS} {t : ℚ}
    (h1 : TickExtension os os2 t) (h2 : TickExtension os2 os3 t) :
    TickExtension os os3 t := by
  obtain ⟨hs1, hm1, hc1, ht1, hr1, hg1, hb1, e1, hq1, he1⟩ := h1
  obtain ⟨hs2, hm2, hc2, ht2, hr2, hg2, hb2, e2, hq2, he2⟩ := h2
  refine ⟨hs2.trans hs1, hm2.trans hm1, hc2.trans hc1, ht2.trans ht1,
    hr2.trans hr1, hg2.trans hg1, hb2.trans hb1, e1 ++ e2, ?_, ?_⟩
  · rw [hq2, hq1, List.append_assoc]
  · intro e he
    rcases List.mem_append.mp he with he | he
    · exact he1 e he
    · refine ⟨(he2 e he).1, fun hr => (he2 e he).2 ?_⟩
      rw [hg1]
      exact hr

/-- One stochastic trial only extends the queue by events at the tick time,
and never by a division event when all draws are at least the division
probability (for trials whose division probability is not overstated). -/
theorem runTrial_extension (t : ℚ) (pid : ℕ) (os : BioOS) (tp : EventType × ℚ)
    (hdiv : tp.1 = EventType.CELL_DIVISION → tp.2 ≤ EVENT_PROB_CELL_DIVISION) :
    TickExtension os (os.runTrial t pid tp) t := by
  unfold BioOS.runTrial BioOS.draw
  by_cases hd : os.rng os.rngIndex < tp.2
  · rw [if_pos hd]
    refine ⟨rfl, rfl, rfl, rfl, rfl, rfl, rfl,
      [{ timestamp := t, event_type := tp.1, source_pid := pid }], rfl, ?_⟩
    intro e he
    have he2 : e = { timestamp := t, event_type := tp.1, source_pid := pid } := by
      simpa using he
    subst he2
    refine ⟨rfl, fun hr hcd => ?_⟩
    have h1 : EVENT_PROB_CELL_DIVISION ≤ os.rng os.rngIndex := hr os.rngIndex
    have h2 : tp.2 ≤ EVENT_PROB_CELL_DIVISION := hdiv hcd
    linarith
  · rw [if_neg hd]
    exact ⟨rfl, rfl, rfl, rfl, rfl, rfl, rfl, [], (List.append_nil _).symm, by simp⟩

/-- Folding the stochastic trials extends the queue as TickExtension. -/
theorem foldl_runTrial_extension (t : ℚ) (pid : ℕ) :
    ∀ (trials : List (EventType × ℚ)) (os : BioOS),
      (∀ tp ∈ trials, tp.1 = EventType.CELL_DIVISION →
        tp.2 ≤ EVENT_PROB_CELL_DIVISION) →
      TickExtension os (trials.foldl (BioOS.runTrial t pid) os) t
  | [], os, _ => TickExtension_refl os t
  | tp :: trials, os, h => by
      rw [List.foldl_cons]
      exact TickExtension_trans
        (runTrial_extension t pid os tp (h tp (List.mem_cons_self _ _)))
        (foldl_runTrial_extension t pid trials _
          (fun tp2 htp2 => h tp2 (List.mem_cons_of_mem _ htp2)))

/-- The configured trial table never fires a division event with a draw at or
above the configured division probability. -/
theorem stochasticTrials_div_bound :
    ∀ tp ∈ stochasticTrials, tp.1 = EventType.CELL_DIVISION →
      tp.2 ≤ EVENT_PROB_CELL_DIVISION := by
  intro tp htp
  simp only [stochasticTrials, List.mem_cons, List.mem_singleton] at htp
  rcases htp with rfl | rfl | rfl | rfl | rfl | h
  · intro _; exact le_refl _
  · intro hc; exact absurd hc (by simp)
  · intro hc; exact absurd hc (by simp)
  · intro hc; exact absurd hc (by simp)
  · intro hc; exact absurd hc (by simp)
  · exact absurd h (List.not_mem_nil _)

/-- The stochastic phase is a TickExtension. -/
theorem stochasticPhase_extension (t : ℚ) :
    ∀ (ps : List BioProcess) (os : BioOS),
      TickExtension os
        (ps.foldl (fun acc p => stochasticTrials.foldl (BioOS.runTrial t p.pid) acc) os) t
  | [], os => TickExtension_refl os t
  | p :: ps, os => by
      rw [List.foldl_cons]
      exact TickExtension_trans
        (foldl_runTrial_extension t p.pid stochasticTrials os stochasticTrials_div_bound)
        (stochasticPhase_extension t ps _)

/-- The stochastic phase of the kernel is a TickExtension. -/
theorem BioOS.stochasticPhase_spec (os : BioOS) (t : ℚ) :
    TickExtension os (os.stochasticPhase t) t :=
  stochasticPhase_extension t _ os

/-- Handling an event that is not a division event is a no-op. -/
theorem BioOS.handleEvent_ne_division {os : BioOS} {e : BiologicalEvent}
    (h : e.event_type ≠ EventType.CELL_DIVISION) : os.handleEvent e = os := by
  unfold BioOS.handleEvent
  cases hety : e.event_type
  case CELL_DIVISION => exact absurd hety h
  all_goals rfl

/-- Folding the handler over division-free events is a no-op. -/
theorem foldl_handleEvent_id :
    ∀ (l : List BiologicalEvent) (os : BioOS),
      (∀ e ∈ l, e.event_type ≠ EventType.CELL_DIVISION) →
      l.foldl BioOS.handleEvent os = os
  | [], _, _ => rfl
  | e :: l, os, h => by
      rw [List.foldl_cons, BioOS.handleEvent_ne_division (h e (List.mem_cons_self _ _))]
      exact foldl_handleEvent_id l os (fun e2 he2 => h e2 (List.mem_cons_of_mem _ he2))

/-- When the queue holds no division event, the dispatch phase only drops the
due events. -/
theorem BioOS.dispatchPhase_no_division (os : BioOS) (t : ℚ)
    (h : ∀ e ∈ os.event_manager.event_queue,
      e.event_type ≠ EventType.CELL_DIVISION) :
    os.dispatchPhase t =
      { os with event_manager := { os.event_manager with
          event_queue := os.event_manager.event_queue.filter
            (fun e => decide (t < e.timestamp)) } } := by
  unfold BioOS.dispatchPhase
  apply foldl_handleEvent_id
  intro e he
  exact h e (dispatchList_due he).1

/-- run_tick with no newly dead process is the update phase followed by the
stochastic phase and the dispatch phase. -/
theorem run_tick_eq_phases (os : BioOS)
    (hnd : (os.scheduler.processes.filter
      (fun q => decide (q.state ≠ ProcessState.TERMINATED) &&
        decide ((q.update os.time_step).state = ProcessState.TERMINATED))).map
      (fun (q : BioProcess) => q.pid) = []) :
    os.run_tick = (os.updatePhase.stochasticPhase
      (os.current_time + os.time_step)).dispatchPhase
      (os.current_time + os.time_step) := by
  simp only [BioOS.run_tick]
  rw [hnd]
  rfl

/-- A tick of a kernel holding exactly one live process (which survives the
update), with an empty queue and a random source that never fires a division
trial: time advances by the time step, the process is updated, memory is
untouched, and the queue ends empty. -/
theorem run_tick_single (os : BioOS) (p : BioProcess)
    (hp : os.scheduler.processes = [p])
    (hq : os.event_manager.event_queue = [])
    (halive2 : (p.update os.time_step).state ≠ ProcessState.TERMINATED)
    (hrng : ∀ i, EVENT_PROB_CELL_DIVISION ≤ os.rng i) :
    (os.run_tick).current_time = os.current_time + os.time_step ∧
    (os.run_tick).time_step = os.time_step ∧
    (os.run_tick).running = os.running ∧
    (os.run_tick).scheduler.processes = [p.update os.time_step] ∧
    (os.run_tick).scheduler.next_pid = os.scheduler.next_pid ∧
    (os.run_tick).memory = os.memory ∧
    (os.run_tick).event_manager.event_queue = [] ∧
    (os.run_tick).rng = os.rng := by
  have hnd : (os.scheduler.processes.filter
      (fun q => decide (q.state ≠ ProcessState.TERMINATED) &&
        decide ((q.update os.time_step).state = ProcessState.TERMINATED))).map
      (fun (q : BioProcess) => q.pid) = [] := by
    rw [hp]
    simp [halive2]
  have hrt := run_tick_eq_phases os hnd
  obtain ⟨hs, hm, hc, htm, hrun, hg, hb, extra, hque, hextra⟩ :=
    BioOS.stochasticPhase_spec os.updatePhase (os.current_time + os.time_step)
  have hque2 : (os.updatePhase.stochasticPhase
      (os.current_time + os.time_step)).event_manager.event_queue = extra := by
    rw [hque]
    show os.event_manager.event_queue ++ extra = extra
    rw [hq, List.nil_append]
  have hnodiv : ∀ e ∈ (os.updatePhase.stochasticPhase
      (os.current_time + os.time_step)).event_manager.event_queue,
      e.event_type ≠ EventType.CELL_DIVISION := by
    rw [hque2]
    intro e he
    exact (hextra e he).2 hrng
  have hdp := BioOS.dispatchPhase_no_division _ (os.current_time + os.time_step) hnodiv
  rw [hrt, hdp]
  refine ⟨?_, ?_, ?_, ?_, ?_, ?_, ?_, ?_⟩
  · show (os.updatePhase.stochasticPhase
      (os.current_time + os.time_step)).current_time = _
    rw [hc]
    rfl
  · show (os.updatePhase.stochasticPhase
      (os.current_time + os.time_step)).time_step = _
    rw [htm]
    rfl
  · show (os.updatePhase.stochasticPhase
      (os.current_time + os.time_step)).running = _
    rw [hrun]
    rfl
  · show (os.updatePhase.stochasticPhase
      (os.current_time + os.time_step)).scheduler.processes = _
    rw [hs]
    show os.scheduler.processes.map (fun (q : BioProcess) => q.update os.time_step) = _
    rw [hp]
    rfl
  · show (os.updatePhase.stochasticPhase
      (os.current_time + os.time_step)).scheduler.next_pid = _
    rw [hs]
    rfl
  · show (os.updatePhase.stochasticPhase
      (os.current_time + os.time_step)).memory = _
    rw [hm]
    rfl
  · show ((os.updatePhase.stochasticPhase
      (os.current_time + os.time_step)).event_manager.event_queue).filter
      (fun e => decide ((os.current_time + os.time_step) < e.timestamp)) = []
    rw [hque2]
    apply List.filter_eq_nil_iff.mpr
    intro e he
    rw [(hextra e he).1]
    simp
  · show (os.updatePhase.stochasticPhase
      (os.current_time + os.time_step)).rng = _
    rw [hg]
    rfl

/-- For up to 10 ticks with a time step of at most 1, the single organism
stays READY and its energy decays linearly. -/
theorem updateIter_energy (name : String) (genome : List (String × Gene))
    (ts : ℚ) (hts1 : ts ≤ 1) :
    ∀ k, k ≤ 10 →
      ((freshProcess 0 name genome).updateIter ts k).energy =
        PROCESS_INITIAL_ENERGY - k * (PROCESS_ENERGY_COST_PER_TICK * ts) ∧
      ((freshProcess 0 name genome).updateIter ts k).state = ProcessState.READY := by
  intro k
  induction k with
  | zero =>
      intro _
      constructor
      · show PROCESS_INITIAL_ENERGY = _
        push_cast
        ring
      · rfl
  | succ k ih =>
      intro hk
      obtain ⟨ihE, ihS⟩ := ih (Nat.le_of_succ_le hk)
      have hkq : ((k : ℚ) + 1) ≤ 10 := by
        have : ((k + 1 : ℕ) : ℚ) ≤ (10 : ℕ) := by exact_mod_cast hk
        push_cast at this
        linarith
      have hpos : 0 < PROCESS_INITIAL_ENERGY - k * (PROCESS_ENERGY_COST_PER_TICK * ts)
          - PROCESS_ENERGY_COST_PER_TICK * ts := by
      -- energy after k+1 steps is 100 - (k+1) ts/2 which is at least 95
        have hk0 : (0:ℚ) ≤ (k : ℚ) := Nat.cast_nonneg k
        have hb : ((k : ℚ) + 1) * ts ≤ 10 := by
          have h1 : ((k : ℚ) + 1) * ts ≤ ((k : ℚ) + 1) * 1 :=
            mul_le_mul_of_nonneg_left hts1 (by linarith)
          linarith
        rw [PROCESS_INITIAL_ENERGY, PROCESS_ENERGY_COST_PER_TICK]
        nlinarith
      have hst : ¬ ((freshProcess 0 name genome).updateIter ts k).state =
          ProcessState.TERMINATED := by
        rw [ihS]
        simp
      have hupd := BioProcess.update_alive ts hst
      have hiter : (freshProcess 0 name genome).updateIter ts (k + 1) =
          ((freshProcess 0 name genome).updateIter ts k).update ts := rfl
      have hnew : ((freshProcess 0 name genome).updateIter ts k).energy -
          PROCESS_ENERGY_COST_PER_TICK * ts =
          PROCESS_INITIAL_ENERGY - (k + 1 : ℕ) * (PROCESS_ENERGY_COST_PER_TICK * ts) := by
        rw [ihE]
        push_cast
        ring
      have hmax : max PROCESS_MIN_ENERGY
          (((freshProcess 0 name genome).updateIter ts k).energy -
            PROCESS_ENERGY_COST_PER_TICK * ts) =
          PROCESS_INITIAL_ENERGY - (k + 1 : ℕ) * (PROCESS_ENERGY_COST_PER_TICK * ts) := by
        rw [hnew]
        apply max_eq_right
        rw [PROCESS_MIN_ENERGY]
        rw [ihE] at hnew
        push_cast at hnew ⊢
        nlinarith [hpos, hnew]
      constructor
      · rw [hiter, hupd]
        show max PROCESS_MIN_ENERGY _ = _
        exact hmax
      · rw [hiter, hupd]
        show (if max PROCESS_MIN_ENERGY _ ≤ PROCESS_MIN_ENERGY then
          ProcessState.TERMINATED else
          ((freshProcess 0 name genome).updateIter ts k).state) = ProcessState.READY
        rw [hmax, ihS]
        rw [if_neg ?_]
        rw [PROCESS_MIN_ENERGY]
        rw [ihE] at hnew
        push_cast at hnew ⊢
        nlinarith [hpos, hnew]

/-- Case equation: organism creation when the allocation succeeds. -/
theorem BioOS.create_organism_ok {os : BioOS} {name : String}
    (genome : List (String × Gene))
    (h : (os.memory.allocate (os.scheduler.create_process name).1
      MEMORY_PER_ORGANISM).1 = true) :
    os.create_organism name genome =
      (Except.ok (os.scheduler.create_process name).1,
       { os with
         scheduler := (os.scheduler.create_process name).2.modifyProcess
           (os.scheduler.create_process name).1
           (fun p => { p with genome := genome }),
         memory := (os.memory.allocate (os.scheduler.create_process name).1
           MEMORY_PER_ORGANISM).2 }) := by
  simp only [BioOS.create_organism]
  rw [if_pos h]

/-- Case equation: organism creation when the allocation fails: the result is
ResourceExhausted and the created process is rolled back by termination. -/
theorem BioOS.create_organism_fail {os : BioOS} {name : String}
    (genome : List (String × Gene))
    (h : (os.memory.allocate (os.scheduler.create_process name).1
      MEMORY_PER_ORGANISM).1 = false) :
    os.create_organism name genome =
      (Except.error BioError.resourceExhausted,
       { os with
         scheduler := (((os.scheduler.create_process name).2.modifyProcess
           (os.scheduler.create_process name).1
           (fun p => { p with genome := genome })).terminate_process
           (os.scheduler.create_process name).1).2 }) := by
  simp only [BioOS.create_organism, h, Bool.false_eq_true, if_false]

/-- Creating the first organism on a fresh kernel: pid 0 is returned, the
organism is registered with the attached genome, and the rest of the kernel
state is unchanged (the allocation of the per-organism footprint succeeds,
since the footprint is far below the fresh capacity). -/
theorem init_create_organism (ts : ℚ) (rng : ℕ → ℚ) (name : String)
    (genome : List (String × Gene)) :
    ((BioOS.init ts rng).create_organism name genome).1 = Except.ok 0 ∧
    ((BioOS.init ts rng).create_organism name genome).2.current_time = 0 ∧
    ((BioOS.init ts rng).create_organism name genome).2.time_step = ts ∧
    ((BioOS.init ts rng).create_organism name genome).2.rng = rng ∧
    ((BioOS.init ts rng).create_organism name genome).2.scheduler.processes =
      [freshProcess 0 name genome] ∧
    ((BioOS.init ts rng).create_organism name genome).2.scheduler.next_pid = 1 ∧
    ((BioOS.init ts rng).create_organism name genome).2.event_manager.event_queue =
      [] := by
  have halloc : (BioOS.init ts rng).memory.allocate 0 MEMORY_PER_ORGANISM =
      (true, { total_capacity := MEMORY_TOTAL_CAPACITY,
               allocations := [(0, MEMORY_PER_ORGANISM)] }) := by
    rw [BiologicalMemory.allocate_ok]
    · rfl
    · rintro (h | h)
      · rw [BiologicalMemory.free_space] at h
        norm_num [BioOS.init, MEMORY_TOTAL_CAPACITY, MEMORY_PER_ORGANISM] at h
      · simp [BioOS.init] at h
  have hpid : ((BioOS.init ts rng).scheduler.create_process name).1 = 0 := rfl
  have hok := BioOS.create_organism_ok genome (by rw [hpid, halloc])
  rw [hok]
  exact ⟨rfl, rfl, rfl, rfl, rfl, rfl, rfl⟩

/-- Unfolding equation for runTicks at zero. -/
theorem BioOS.runTicks_zero (os : BioOS) : os.runTicks 0 = os := rfl

/-- Unfolding equation for runTicks at a successor. -/
theorem BioOS.runTicks_succ (os : BioOS) (k : ℕ) :
    os.runTicks (k + 1) = (os.runTicks k).run_tick := rfl

/-- Unfolding equation for updateIter at a successor. -/
theorem BioProcess.updateIter_succ (p : BioProcess) (dt : ℚ) (k : ℕ) :
    p.updateIter dt (k + 1) = (p.updateIter dt k).update dt := rfl

/-- Invariant over up to 10 ticks of a fresh kernel holding one organism,
when the random source never fires a division trial: time accumulates, the
single organism is updated once per tick, memory is untouched and the event
queue is drained every tick. -/
theorem runTicks_invariant (ts : ℚ) (hts1 : ts ≤ 1)
    (rng : ℕ → ℚ) (hrng : ∀ i, EVENT_PROB_CELL_DIVISION ≤ rng i)
    (name : String) (genome : List (String × Gene)) :
    ∀ k, k ≤ 10 →
      ((((BioOS.init ts rng).create_organism name genome).2).runTicks k).current_time =
        k * ts ∧
      ((((BioOS.init ts rng).create_organism name genome).2).runTicks k).time_step = ts ∧
      ((((BioOS.init ts rng).create_organism name genome).2).runTicks k).rng = rng ∧
      ((((BioOS.init ts rng).create_organism name genome).2).runTicks k).scheduler.processes =
        [(freshProcess 0 name genome).updateIter ts k] ∧
      ((((BioOS.init ts rng).create_organism name genome).2).runTicks k).memory =
        ((BioOS.init ts rng).create_organism name genome).2.memory ∧
      ((((BioOS.init ts rng).create_organism name genome).2).runTicks k).event_manager.event_queue =
        [] := by
  intro k
  induction k with
  | zero =>
      intro _
      obtain ⟨_, hct, hts, hrg, hpr, _, hqu⟩ := init_create_organism ts rng name genome
      rw [BioOS.runTicks_zero]
      refine ⟨?_, hts, hrg, hpr, rfl, hqu⟩
      rw [hct, Nat.cast_zero, zero_mul]
  | succ k ih =>
      intro hk
      obtain ⟨ihT, ihS, ihR, ihP, ihM, ihQ⟩ := ih (Nat.le_of_succ_le hk)
      have hstate := (updateIter_energy name genome ts hts1 (k + 1) hk).2
      have halive2 : (((freshProcess 0 name genome).updateIter ts k).update
          ((((BioOS.init ts rng).create_organism name genome).2).runTicks k).time_step).state ≠
          ProcessState.TERMINATED := by
        rw [ihS]
        rw [← BioProcess.updateIter_succ, hstate]
        simp
      have hrng2 : ∀ i, EVENT_PROB_CELL_DIVISION ≤
          ((((BioOS.init ts rng).create_organism name genome).2).runTicks k).rng i := by
        rw [ihR]
        exact hrng
      obtain ⟨hT, hS, _, hP, hN, hM, hQ, hR⟩ := run_tick_single
        ((((BioOS.init ts rng).create_organism name genome).2).runTicks k)
        ((freshProcess 0 name genome).updateIter ts k) ihP ihQ halive2 hrng2
      have hstep := BioOS.runTicks_succ (((BioOS.init ts rng).create_organism name genome).2) k
      refine ⟨?_, ?_, ?_, ?_, ?_, ?_⟩
      · rw [hstep, hT, ihT, ihS]
        push_cast
        ring
      · rw [hstep, hS, ihS]
      · rw [hstep, hR, ihR]
      · rw [hstep, hP, ihS, ← BioProcess.updateIter_succ]
      · rw [hstep, hM, ihM]
      · rw [hstep, hQ]

/-- C6 (amended): for a fresh kernel with one organism and a random source
whose draws never fire a division trial, one run_tick with time_step 0.1
advances current_time from 0.0 to exactly 0.1; ten run_tick calls with
time_step 0.1 leave current_time at exactly 1.0 and the organism at
initial_energy minus 10 times energy_cost_per_tick times time_step; ten
run_tick calls with time_step 1.0 (as in the source energy test) leave the
organism at initial_energy minus 10 times energy_cost_per_tick. -/
theorem BioOS.run_tick_spec (rng : ℕ → ℚ) (name : String)
    (genome : List (String × Gene))
    (hrng : ∀ i, EVENT_PROB_CELL_DIVISION ≤ rng i) :
    ((((BioOS.init (1/10) rng).create_organism name genome).2).run_tick).current_time =
      1/10 ∧
    ((((BioOS.init (1/10) rng).create_organism name genome).2).runTicks 10).current_time =
      1 ∧
    ((((BioOS.init (1/10) rng).create_organism name genome).2).runTicks 10).scheduler.processes.map
      BioProcess.energy =
      [PROCESS_INITIAL_ENERGY - 10 * (PROCESS_ENERGY_COST_PER_TICK * (1/10))] ∧
    ((((BioOS.init 1 rng).create_organism name genome).2).runTicks 10).scheduler.processes.map
      BioProcess.energy =
      [PROCESS_INITIAL_ENERGY - 10 * PROCESS_ENERGY_COST_PER_TICK] := by
  have h01 := runTicks_invariant (1/10) (by norm_num) rng hrng name genome
  have h1 := runTicks_invariant 1 (by norm_num) rng hrng name genome
  refine ⟨?_, ?_, ?_, ?_⟩
  · have h2 := (h01 1 (by norm_num)).1
    rw [BioOS.runTicks_succ, BioOS.runTicks_zero] at h2
    rw [h2]
    norm_num
  · rw [(h01 10 (le_refl 10)).1]
    norm_num
  · rw [(h01 10 (le_refl 10)).2.2.2.1, List.map_cons, List.map_nil,
      (updateIter_energy name genome (1/10) (by norm_num) 10 (le_refl 10)).1]
    norm_num
  · rw [(h1 10 (le_refl 10)).2.2.2.1, List.map_cons, List.map_nil,
      (updateIter_energy name genome 1 (by norm_num) 10 (le_refl 10)).1]
    norm_num

/-- Witness for C6 with the constant random source drawing 1 (no trial ever
fires): the time and energy conclusions at the concrete kernels. -/
theorem BioOS.run_tick_spec_witness :
    ((((BioOS.init (1/10) (fun _ => 1)).create_organism "TestOrg" []).2).runTicks 10).current_time =
      1 ∧
    ((((BioOS.init 1 (fun _ => 1)).create_organism "TestOrg" []).2).runTicks 10).scheduler.processes.map
      BioProcess.energy =
      [PROCESS_INITIAL_ENERGY - 10 * PROCESS_ENERGY_COST_PER_TICK] := by
  have h := BioOS.run_tick_spec (fun _ => 1) "TestOrg" []
    (fun i => by norm_num [EVENT_PROB_CELL_DIVISION])
  exact ⟨h.2.1, h.2.2.2⟩

/-- Counterexample refuting C6 as stated: with time_step 0.1 (and a random
source firing no trial), ten ticks leave the organism at energy 99.5, not at
initial_energy minus 10 times energy_cost_per_tick = 95; the energy figure of
the claim holds only for a kernel with time_step 1.0, as in the source test
TestIntegration.test_organism_energy_dynamics. -/
theorem BioOS.tick_energy_counterexample :
    ((((BioOS.init (1/10) (fun _ => 1)).create_organism "TestOrg"
      [("GROWTH_GENE", Gene.create "GROWTH_GENE" "ATCG")]).2).runTicks 10).current_time = 1 ∧
    ((((BioOS.init (1/10) (fun _ => 1)).create_organism "TestOrg"
      [("GROWTH_GENE", Gene.create "GROWTH_GENE" "ATCG")]).2).runTicks 10).scheduler.processes.map
      BioProcess.energy = [199/2] ∧
    ¬ ((((BioOS.init (1/10) (fun _ => 1)).create_organism "TestOrg"
      [("GROWTH_GENE", Gene.create "GROWTH_GENE" "ATCG")]).2).runTicks 10).scheduler.processes.map
      BioProcess.energy =
      [PROCESS_INITIAL_ENERGY - 10 * PROCESS_ENERGY_COST_PER_TICK] := by
  have hrng : ∀ i : ℕ, EVENT_PROB_CELL_DIVISION ≤ (fun _ : ℕ => (1:ℚ)) i := by
    intro i
    norm_num [EVENT_PROB_CELL_DIVISION]
  have h := runTicks_invariant (1/10) (by norm_num) (fun _ => 1) hrng "TestOrg"
    [("GROWTH_GENE", Gene.create "GROWTH_GENE" "ATCG")]
  have hE := (updateIter_energy "TestOrg"
    [("GROWTH_GENE", Gene.create "GROWTH_GENE" "ATCG")] (1/10) (by norm_num) 10
    (le_refl 10)).1
  refine ⟨?_, ?_, ?_⟩
  · rw [(h 10 (le_refl 10)).1]
    norm_num
  · rw [(h 10 (le_refl 10)).2.2.2.1, List.map_cons, List.map_nil, hE]
    norm_num [PROCESS_INITIAL_ENERGY, PROCESS_ENERGY_COST_PER_TICK]
  · rw [(h 10 (le_refl 10)).2.2.2.1, List.map_cons, List.map_nil, hE]
    intro hc
    have := List.head_eq_of_cons_eq hc
    norm_num [PROCESS_INITIAL_ENERGY, PROCESS_ENERGY_COST_PER_TICK] at this

/-! ## Claim C8: capacity stress -/

set_option maxRecDepth 8000

/-- C8: against the configured capacity of 10000.0 with a per-organism
footprint of 100.0, the first 100 organism creations all succeed and the
101st fails; the failing creation returns ResourceExhausted and its freshly
created process (pid 100) is rolled back to TERMINATED, not left dangling. -/
theorem BioOS.create_organism_capacity_spec :
    (stressResults 101).1 = List.replicate 100 true ++ [false] ∧
    ((stressResults 100).2.create_organism "Org" stressGenome).1 =
      Except.error BioError.resourceExhausted ∧
    (((stressResults 100).2.create_organism "Org" stressGenome).2.scheduler.get_process
      100).map (fun p => p.state) = some ProcessState.TERMINATED := by
  refine ⟨?_, ?_, ?_⟩ <;> with_unfolding_all rfl
